import Mathlib

/-!
Verification of the SDAL-Builder encoding engine (src/sdal_builder).

Bytes are modelled as `List Nat` with every element < 256.  `struct.pack`
fields are modelled by total functions that reduce the value modulo the
field width; at every call site the Python source either masks the value
itself (`& 0xFFFF` …) or the theorems below carry explicit range
hypotheses, so the embedding agrees with `struct.pack` wherever the
Python code does not raise `struct.error`.
-/

namespace SDAL

/-- Big-endian `>H` (u16). -/
def packU16 (v : Nat) : List Nat := [v / 256 % 256, v % 256]

/-- Big-endian `>I` (u32). -/
def packU32 (v : Nat) : List Nat :=
  [v / 16777216 % 256, v / 65536 % 256, v / 256 % 256, v % 256]

/-- Big-endian `>i` (i32), two's complement. -/
def packI32 (v : Int) : List Nat := packU32 ((v % 4294967296).toNat)

/-- Read a big-endian u16 at byte offset `i` (0 beyond the end). -/
def readU16be (l : List Nat) (i : Nat) : Nat :=
  256 * l.getD i 0 + l.getD (i + 1) 0

/-! ### constants.py -/

def NO_COMPRESSION : Nat := 0
def SZIP_COMPRESSION : Nat := 4
def PCL_HEADER_SIZE : Nat := 20

/-- `HUFFMAN_TABLE` in constants.py: keys are the integers 0..255 (with a
handful of overridden short codes); the module-level `EOF` name is the
*string* `"_EOF"`, which is not a key of the table.  A key is therefore
either an integer or a string. -/
inductive HKey where
  | int (n : Nat)
  | str (s : String)

/-- Bit-string value of `HUFFMAN_TABLE[i]` for an integer key, as a list of
bits (true = '1').  Default entry is the 8-bit binary of `i`; entries
0..7, 32 and 33 are overridden by the `update` call. -/
def huffCode (i : Nat) : List Bool :=
  if i = 0 then [false, false, false]
  else if i = 1 then [false, false, true]
  else if i = 2 then [false, true, false, false]
  else if i = 3 then [false, true, false, true]
  else if i = 4 then [false, true, true, false, false]
  else if i = 5 then [false, true, true, false, true]
  else if i = 6 then [false, true, true, true, false]
  else if i = 7 then [false, true, true, true, true]
  else if i = 32 then [true, false, true]
  else if i = 33 then [true, true, true]
  else (List.range 8).map (fun k => i / 2 ^ (7 - k) % 2 = 1)

/-- `HUFFMAN_TABLE.get(key)`. -/
def huffmanTableGet : HKey → Option (List Bool)
  | .int n => if n < 256 then some (huffCode n) else none
  | .str _ => none

/-- `_pack_bits_to_bytes`: pack a bit list into bytes, zero-padding the
final byte at the LSB end. -/
def pack_bits_to_bytes (bits : List Bool) : List Nat :=
  let padding_len := (8 - bits.length % 8) % 8
  let padded := bits ++ List.replicate padding_len false
  (List.range (padded.length / 8)).map (fun i =>
    (List.range 8).foldl (fun acc k =>
      acc * 2 + (if padded.getD (8 * i + k) false then 1 else 0)) 0)

/-- `huffman_compress` (encoder.py).  After encoding the payload it looks
up `HUFFMAN_TABLE.get(EOF)` where `EOF = "_EOF"` is a string key absent
from the integer-keyed table, so the lookup yields `None` and the function
raises `ValueError` (`none` here) on every input. -/
def huffman_compress (payload : List Nat) : Option (List Nat) :=
  match payload.mapM (fun b => huffmanTableGet (.int b)) with
  | none => none
  | some codes =>
    match huffmanTableGet (.str "_EOF") with
    | none => none
    | some eof => some (pack_bits_to_bytes (codes.flatten ++ eof))

/-- `make_parcelid` (encoder.py): 32-bit composite ParcelID_t;
raises `ValueError` (`none`) when `offset_units` or `size_index` is out of
range. -/
def make_parcelid (offset_units size_index : Nat)
    (external_to_region redundancy : Bool) : Option Nat :=
  if offset_units ≥ 2 ^ 24 then none
  else if size_index ≥ 64 then none
  else some ((((if external_to_region then 2 ^ 31 else 0) |||
    (if redundancy then 2 ^ 30 else 0)) |||
    ((size_index &&& 0x3F) <<< 24) ||| (offset_units &&& 0xFFFFFF)) &&& 0xFFFFFFFF)

/-- `_build_pcl_header` (encoder.py): the 20-byte PclHdr_t
(`>I H B B B B H H H H H`, big-endian).  `payload_len` is a `Nat` here so
the Python `payload_len < 0` ValueError branch cannot occur. -/
def build_pcl_header (parcelid payload_len compressed_payload_len region
    parcel_type parcel_desc compress_type data_offset : Nat) : List Nat :=
  let size_bits := compressed_payload_len * 8
  let ucCmpDataSizeHi := (size_bits >>> 16) &&& 0xFF
  let usCmpDataSizeLo := size_bits &&& 0xFFFF
  packU32 (parcelid &&& 0xFFFFFFFF) ++
  packU16 (parcel_desc &&& 0xFFFF) ++
  [parcel_type &&& 0xFF] ++
  [region &&& 0xFF] ++
  [0] ++
  [ucCmpDataSizeHi] ++
  packU16 usCmpDataSizeLo ++
  packU16 (compress_type &&& 0xFFFF) ++
  packU16 (data_offset &&& 0xFFFF) ++
  packU16 (payload_len &&& 0xFFFF) ++
  packU16 0

/-- `encode_bytes` (encoder.py): wrap a payload into PclHdr_t + data.
`none` models the ValueError raised by `huffman_compress` (always, when
SZIP is requested) or by `make_parcelid`. -/
def encode_bytes (pid : Nat) (payload : List Nat) (region parcel_type
    parcel_desc compress_type offset_units size_index : Nat)
    (external_to_region redundancy : Bool) : Option (List Nat) :=
  let parcel_desc := if parcel_desc = 0 then pid &&& 0xFFFF else parcel_desc
  let uncompressed_len := payload.length
  match (if compress_type = SZIP_COMPRESSION then huffman_compress payload
         else some payload) with
  | none => none
  | some compressed_payload =>
    match make_parcelid offset_units size_index external_to_region redundancy with
    | none => none
    | some parcelid =>
      some (build_pcl_header parcelid uncompressed_len compressed_payload.length
              region parcel_type parcel_desc compress_type PCL_HEADER_SIZE
            ++ compressed_payload)

/-- The ParcelID value produced by `make_parcelid` in its non-error branch. -/
def parcelidVal (ou si : Nat) (ext red : Bool) : Nat :=
  (((if ext then 2 ^ 31 else 0) ||| (if red then 2 ^ 30 else 0)) |||
    ((si &&& 0x3F) <<< 24) ||| (ou &&& 0xFFFFFF)) &&& 0xFFFFFFFF

theorem huffman_compress_eq_none (payload : List Nat) :
    huffman_compress payload = none := by
  unfold huffman_compress
  cases payload.mapM (fun b => huffmanTableGet (.int b)) <;> rfl

theorem encode_bytes_eq_some_iff (pid : Nat) (payload : List Nat)
    (r t d ct ou si : Nat) (ext red : Bool) (l : List Nat) :
    encode_bytes pid payload r t d ct ou si ext red = some l ↔
      (ct ≠ SZIP_COMPRESSION ∧ ou < 2 ^ 24 ∧ si < 64 ∧
       l = build_pcl_header (parcelidVal ou si ext red)
             payload.length payload.length r t
             (if d = 0 then pid &&& 0xFFFF else d) ct PCL_HEADER_SIZE
           ++ payload) := by
  unfold encode_bytes make_parcelid parcelidVal
  by_cases hct : ct = SZIP_COMPRESSION
  · simp [hct, huffman_compress_eq_none]
  · rw [if_neg hct]
    by_cases hou : ou ≥ 2 ^ 24
    · rw [if_pos hou]
      constructor
      · intro h; simp at h
      · rintro ⟨_, h2, _⟩; omega
    · rw [if_neg hou]
      by_cases hsi : si ≥ 64
      · rw [if_pos hsi]
        constructor
        · intro h; simp at h
        · rintro ⟨_, _, h3, _⟩; omega
      · rw [if_neg hsi]
        constructor
        · intro h
          simp only [Option.some.injEq] at h
          exact ⟨hct, by omega, by omega, h.symm⟩
        · rintro ⟨_, _, _, h⟩
          simp only [Option.some.injEq]
          exact h.symm

theorem build_pcl_header_length (a b c d e f g h : Nat) :
    (build_pcl_header a b c d e f g h).length = 20 := by
  simp [build_pcl_header, packU32, packU16]

theorem pcl_header_field16 (a b c d e f g h : Nat) (rest : List Nat) :
    readU16be (build_pcl_header a b c d e f g h ++ rest) 16 = b % 65536 := by
  have h1 : b &&& 0xFFFF = b % 65536 := by
    have := Nat.and_pow_two_sub_one_eq_mod b 16
    norm_num at this
    exact this
  simp [build_pcl_header, packU32, packU16, readU16be, List.getD_append,
    List.getD_cons_succ, List.getD_cons_zero, h1]
  omega

theorem pcl_header_field4 (a b c d e f g h : Nat) (rest : List Nat) :
    readU16be (build_pcl_header a b c d e f g h ++ rest) 4 = f % 65536 := by
  have h1 : f &&& 0xFFFF = f % 65536 := by
    have := Nat.and_pow_two_sub_one_eq_mod f 16
    norm_num at this
    exact this
  simp [build_pcl_header, packU32, packU16, readU16be, List.getD_append,
    List.getD_cons_succ, List.getD_cons_zero, h1]
  omega

/-! ### Claims C1, C6, C10 (parcel container) -/

/-- C1, counterexample: `encode_bytes` accepts a 65,001-byte payload
(whose "compressed form", with compression disabled, is the payload
itself) and returns a parcel instead of failing: there is no
`ParcelTooLarge` path anywhere in the source. -/
theorem C1_counterexample :
    (encode_bytes 1 (List.replicate 65001 0) 1 0 0 NO_COMPRESSION 0 0 false false).isSome
      = true ∧
    ((encode_bytes 1 (List.replicate 65001 0) 1 0 0 NO_COMPRESSION 0 0 false false).getD
        []).length = PCL_HEADER_SIZE + 65001 ∧
    65001 > 65000 := by
  have h : encode_bytes 1 (List.replicate 65001 0) 1 0 0 NO_COMPRESSION 0 0 false false =
      some (build_pcl_header (parcelidVal 0 0 false false)
              (List.replicate 65001 (0 : Nat)).length
              (List.replicate 65001 (0 : Nat)).length 1 0
              (if (0 : Nat) = 0 then 1 &&& 0xFFFF else 0) NO_COMPRESSION PCL_HEADER_SIZE
            ++ List.replicate 65001 0) :=
    (encode_bytes_eq_some_iff 1 (List.replicate 65001 0) 1 0 0 NO_COMPRESSION 0 0
      false false _).mpr ⟨by decide, by norm_num, by norm_num, rfl⟩
  rw [h]
  refine ⟨rfl, ?_, by norm_num⟩
  simp only [Option.getD_some, List.length_append, build_pcl_header_length,
    List.length_replicate, PCL_HEADER_SIZE]

/-- C1 (amended): `encode_bytes` enforces no 65,000-byte ceiling and never
fails with `ParcelTooLarge`.  For every payload — in particular any payload
longer than 65,000 bytes — and any non-SZIP compression type with in-range
`offset_units`/`size_index`, it returns a parcel of exactly
`20 + payload_len` bytes, i.e. the compressed payload stored in the parcel
exceeds 65,000 bytes whenever the input does. -/
theorem C1_encode_bytes_no_ceiling (pid : Nat) (payload : List Nat)
    (r t d ct ou si : Nat) (ext red : Bool)
    (hct : ct ≠ SZIP_COMPRESSION) (hou : ou < 2 ^ 24) (hsi : si < 64)
    (hbig : 65000 < payload.length) :
    ∃ l, encode_bytes pid payload r t d ct ou si ext red = some l ∧
      l.length = PCL_HEADER_SIZE + payload.length ∧
      65000 < l.length - PCL_HEADER_SIZE := by
  refine ⟨_, (encode_bytes_eq_some_iff pid payload r t d ct ou si ext red _).mpr
    ⟨hct, hou, hsi, rfl⟩, ?_, ?_⟩
  · simp only [List.length_append, build_pcl_header_length, PCL_HEADER_SIZE]
  · simp only [List.length_append, build_pcl_header_length, PCL_HEADER_SIZE]
    omega

/-- C1, witness for the amended theorem at a concrete oversized payload. -/
theorem C1_witness :
    ∃ l, encode_bytes 2 (List.replicate 70000 0) 1 0 0 NO_COMPRESSION 0 0 false false
        = some l ∧
      l.length = PCL_HEADER_SIZE + (List.replicate 70000 (0 : Nat)).length ∧
      65000 < l.length - PCL_HEADER_SIZE :=
  C1_encode_bytes_no_ceiling 2 (List.replicate 70000 0) 1 0 0 NO_COMPRESSION 0 0
    false false (by decide) (by norm_num) (by norm_num)
    (by rw [List.length_replicate]; norm_num)

/-- C6, counterexample: for the empty payload the u16 at byte offset 16
of the parcel header is `0`, whereas the claim's formula
`min(20 + payload_len, 0xFFFF)` gives `20`. -/
theorem C6_counterexample :
    readU16be ((encode_bytes 1 [] 1 0 0 NO_COMPRESSION 0 0 false false).getD []) 16 = 0 ∧
    min (20 + 0) 0xFFFF = 20 ∧ (0 : Nat) ≠ 20 := by
  refine ⟨?_, by norm_num, by norm_num⟩
  rfl

/-- C6 (amended): the 16-bit field at byte offset 16 of the parcel header
(`usCmpDataUncompSize`) equals `payload_len mod 2^16` — the uncompressed
payload length truncated to 16 bits, with no `+20` for the header and
truncation rather than saturation. -/
theorem C6_uncomp_size_field (pid : Nat) (payload : List Nat)
    (r t d ct ou si : Nat) (ext red : Bool) (l : List Nat)
    (h : encode_bytes pid payload r t d ct ou si ext red = some l) :
    readU16be l 16 = payload.length % 65536 := by
  obtain ⟨-, -, -, rfl⟩ := (encode_bytes_eq_some_iff pid payload r t d ct ou si ext red l).mp h
  exact pcl_header_field16 _ _ _ _ _ _ _ _ _

/-- C6, witness: a 3-byte payload stores 3 in the field at offset 16. -/
theorem C6_witness :
    readU16be ((encode_bytes 1 [10, 20, 30] 1 0 0 NO_COMPRESSION 0 0 false false).getD [])
      16 = [10, 20, 30].length % 65536 :=
  C6_uncomp_size_field 1 [10, 20, 30] 1 0 0 NO_COMPRESSION 0 0 false false _ rfl

/-- C10, counterexample: with `parcel_desc = 0x10000` (a nonzero Python int
whose low 16 bits are zero) and `pid = 1`, the emitted descriptor field is
`0` although `pid &&& 0xFFFF = 1 ≠ 0`, refuting "a descriptor value of 0
can only ever be emitted when pid & 0xFFFF is itself 0". -/
theorem C10_counterexample :
    (encode_bytes 1 [] 1 0 65536 NO_COMPRESSION 0 0 false false).isSome = true ∧
    readU16be ((encode_bytes 1 [] 1 0 65536 NO_COMPRESSION 0 0 false false).getD []) 4
      = 0 ∧
    1 &&& 0xFFFF ≠ 0 := by
  exact ⟨rfl, rfl, by decide⟩

/-- C10 (amended): calling `encode_bytes` with `parcel_desc = 0` emits a
descriptor field equal to `pid mod 2^16`; and for every 16-bit
`parcel_desc` value a zero descriptor field can only be emitted when
`pid mod 2^16` is itself zero. -/
theorem C10_desc_field (pid : Nat) (payload : List Nat)
    (r t ct ou si : Nat) (ext red : Bool) :
    (∀ l, encode_bytes pid payload r t 0 ct ou si ext red = some l →
        readU16be l 4 = pid % 65536) ∧
    (∀ d l, d < 65536 → encode_bytes pid payload r t d ct ou si ext red = some l →
        readU16be l 4 = 0 → pid % 65536 = 0) := by
  constructor
  · intro l h
    obtain ⟨-, -, -, rfl⟩ :=
      (encode_bytes_eq_some_iff pid payload r t 0 ct ou si ext red l).mp h
    rw [pcl_header_field4]
    simp only [reduceIte]
    have h1 : pid &&& 0xFFFF = pid % 65536 := by
      have := Nat.and_pow_two_sub_one_eq_mod pid 16
      norm_num at this
      exact this
    rw [h1]
    omega
  · intro d l hd h hz
    obtain ⟨-, -, -, rfl⟩ :=
      (encode_bytes_eq_some_iff pid payload r t d ct ou si ext red l).mp h
    rw [pcl_header_field4] at hz
    by_cases hd0 : d = 0
    · rw [if_pos hd0] at hz
      have h1 : pid &&& 0xFFFF = pid % 65536 := by
        have := Nat.and_pow_two_sub_one_eq_mod pid 16
        norm_num at this
        exact this
      rw [h1] at hz
      omega
    · rw [if_neg hd0] at hz
      omega

/-- C10, witness for the amended theorem at `pid = 7`. -/
theorem C10_witness :
    readU16be ((encode_bytes 7 [] 1 0 0 NO_COMPRESSION 0 0 false false).getD []) 4
      = 7 % 65536 :=
  (C10_desc_field 7 [] 1 0 NO_COMPRESSION 0 0 false false).1 _ rfl

/-! ### routing_format.py: the bit-level writer (`BitStream`) -/
/-- MSB-first list of the low `n` bits of `v` (each element 0 or 1). -/
def natBits : Nat → Nat → List Nat
  | 0, _ => []
  | n + 1, v => v / 2 ^ n % 2 :: natBits n v

theorem natBits_length (n v : Nat) : (natBits n v).length = n := by
  induction n generalizing v with
  | zero => rfl
  | succ n ih => simp [natBits, ih]

theorem natBits_split (a b v : Nat) :
    natBits (a + b) v = natBits a (v / 2 ^ b) ++ natBits b v := by
  induction a with
  | zero => simp [natBits]
  | succ a ih =>
    have h : a + 1 + b = (a + b) + 1 := by omega
    rw [h]
    simp only [natBits]
    rw [Nat.div_div_eq_div_mul, ← pow_add]
    rw [show b + a = a + b by omega]
    simp [ih]

theorem natBits_add_high (n : Nat) : ∀ v x : Nat, natBits n (v + x * 2 ^ n) = natBits n v := by
  induction n with
  | zero => intro v x; rfl
  | succ n ih =>
    intro v x
    have hrw : v + x * 2 ^ (n + 1) = v + 2 * x * 2 ^ n := by ring
    simp only [natBits, hrw]
    have h2 : (v + 2 * x * 2 ^ n) / 2 ^ n = v / 2 ^ n + 2 * x :=
      Nat.add_mul_div_right _ _ (Nat.pos_pow_of_pos n (by norm_num))
    rw [List.cons.injEq]
    refine ⟨by rw [h2]; omega, ih v (2 * x)⟩

theorem natBits_mod (n v : Nat) : natBits n (v % 2 ^ n) = natBits n v := by
  conv_rhs => rw [← Nat.mod_add_div' v (2 ^ n)]
  rw [natBits_add_high]

theorem natBits_mul_add (a b x y : Nat) (hy : y < 2 ^ b) :
    natBits (a + b) (x * 2 ^ b + y) = natBits a x ++ natBits b y := by
  rw [natBits_split]
  have hpos : 0 < 2 ^ b := Nat.pos_pow_of_pos b (by norm_num)
  have h1 : (x * 2 ^ b + y) / 2 ^ b = x := by
    rw [show x * 2 ^ b + y = 2 ^ b * x + y by ring, Nat.mul_add_div hpos,
      Nat.div_eq_of_lt hy]
    omega
  have h2 : natBits b (x * 2 ^ b + y) = natBits b y := by
    rw [← natBits_mod, show x * 2 ^ b + y = 2 ^ b * x + y by ring,
      Nat.mul_add_mod, Nat.mod_eq_of_lt hy]
  rw [h1, h2]

theorem natBits_zero_val (n : Nat) : natBits n 0 = List.replicate n 0 := by
  induction n with
  | zero => rfl
  | succ n ih => simp [natBits, ih, List.replicate_succ]

/-- A byte as its 8 bits, MSB first. -/
def byteBits (b : Nat) : List Nat := natBits 8 b

/-- `BitStream` (routing_format.py): byte buffer plus count of bits already
occupied in the final byte. -/
structure BitStream where
  buffer : List Nat
  bit_count : Nat
deriving DecidableEq

/-- `self.buffer[-1] |= v` on a nonempty buffer. -/
def orLast (l : List Nat) (v : Nat) : List Nat :=
  l.dropLast ++ [l.getLast?.getD 0 ||| v]

/-- One iteration of the `while` loop in `BitStream.write_bits`:
`segment = (value >> shift) & mask` is placed into the current byte
(appending a fresh zero byte when `bit_count == 0`), and `bit_count`
wraps to 0 on reaching 8. -/
def writeStep (s : BitStream) (value num_bits btw : Nat) : BitStream :=
  ⟨orLast (if s.bit_count = 0 then s.buffer ++ [0] else s.buffer)
     (((value >>> (num_bits - btw)) &&& ((1 <<< btw) - 1)) <<< (8 - s.bit_count - btw)),
   if s.bit_count + btw = 8 then 0 else s.bit_count + btw⟩

/-- The `while num_bits > 0` loop of `write_bits`.  Each iteration writes
`bits_to_write = min (8 - bit_count) num_bits ≥ 1` bits, so `num_bits`
itself is enough fuel; the `btw = 0` fallback is unreachable while
`bit_count < 8` (in Python it would loop forever). -/
def writeBitsAux : Nat → BitStream → Nat → Nat → BitStream
  | 0, s, _, _ => s
  | fuel + 1, s, value, num_bits =>
    if num_bits = 0 then s
    else
      let btw := min (8 - s.bit_count) num_bits
      if btw = 0 then s
      else writeBitsAux fuel (writeStep s value num_bits btw) value (num_bits - btw)

/-- `BitStream.write_bits`. -/
def write_bits (s : BitStream) (value num_bits : Nat) : BitStream :=
  writeBitsAux num_bits s value num_bits

/-- `BitStream.finalize` returns the byte buffer unchanged. -/
def BitStream.finalize (s : BitStream) : List Nat := s.buffer

/-- Invariant maintained by `write_bits`: fewer than 8 pending bits, the
pending bits live at the top of a final byte whose unused low bits are
zero, and all bytes are in range. -/
def BitStream.WF (s : BitStream) : Prop :=
  s.bit_count < 8 ∧
  (s.bit_count ≠ 0 → s.buffer ≠ [] ∧ s.buffer.getLast?.getD 0 % 2 ^ (8 - s.bit_count) = 0) ∧
  ∀ b ∈ s.buffer, b < 256

/-- Number of bits written to the stream so far. -/
def bitLen (s : BitStream) : Nat :=
  if s.bit_count = 0 then 8 * s.buffer.length else 8 * (s.buffer.length - 1) + s.bit_count

/-- The bits written so far, MSB-first within each byte. -/
def streamBits (s : BitStream) : List Nat :=
  ((s.buffer.map byteBits).flatten).take (bitLen s)

theorem flatten_byteBits_length (l : List Nat) :
    ((l.map byteBits).flatten).length = 8 * l.length := by
  induction l with
  | nil => simp
  | cons x xs ih => simp only [List.map_cons, List.flatten_cons, List.length_append,
      List.length_cons, ih, byteBits, natBits_length]; omega

theorem take_append_len {α : Type} (a b : List α) (n : Nat) :
    (a ++ b).take (a.length + n) = a ++ b.take n := by
  induction a with
  | nil => simp
  | cons x xs ih => simp only [List.cons_append, List.length_cons, List.take,
      Nat.succ_add, ih, List.cons.injEq, true_and]


theorem streamBits_decomp (s : BitStream) (hbc : s.bit_count < 8)
    (hlow : s.bit_count ≠ 0 → s.buffer ≠ [] ∧
      s.buffer.getLast?.getD 0 % 2 ^ (8 - s.bit_count) = 0)
    (hbytes : ∀ b ∈ s.buffer, b < 256) :
    ∃ init L, (if s.bit_count = 0 then s.buffer ++ [0] else s.buffer) = init ++ [L] ∧
      L < 256 ∧ L % 2 ^ (8 - s.bit_count) = 0 ∧
      streamBits s = ((init.map byteBits).flatten) ++ (byteBits L).take s.bit_count ∧
      bitLen s = 8 * init.length + s.bit_count ∧ (∀ b ∈ init, b < 256) := by
  by_cases hbc0 : s.bit_count = 0
  · refine ⟨s.buffer, 0, by rw [if_pos hbc0], by norm_num, by simp, ?_, ?_, hbytes⟩
    · rw [streamBits, bitLen, if_pos hbc0, hbc0]
      rw [← flatten_byteBits_length s.buffer, List.take_length]
      simp
    · rw [bitLen, if_pos hbc0, hbc0]
      omega
  · obtain ⟨hne, hlast⟩ := hlow hbc0
    have hgl : s.buffer.getLast? = some (s.buffer.getLast hne) :=
      List.getLast?_eq_getLast s.buffer hne
    have hsplit : s.buffer.dropLast ++ [s.buffer.getLast?.getD 0] = s.buffer := by
      rw [hgl]
      exact List.dropLast_append_getLast hne
    refine ⟨s.buffer.dropLast, s.buffer.getLast?.getD 0, by rw [if_neg hbc0, hsplit],
      ?_, hlast, ?_, ?_, ?_⟩
    · refine hbytes _ ?_
      rw [hgl]
      simp only [Option.getD_some]
      exact List.getLast_mem hne
    · rw [streamBits, bitLen, if_neg hbc0]
      conv_lhs => rw [← hsplit, List.map_append, List.flatten_append]
      simp only [List.map_cons, List.map_nil, List.flatten_cons, List.flatten_nil,
        List.append_nil, List.length_append, List.length_singleton]
      rw [show 8 * (s.buffer.dropLast.length + 1 - 1) + s.bit_count =
        ((s.buffer.dropLast.map byteBits).flatten).length + s.bit_count by
          rw [flatten_byteBits_length]; omega]
      rw [take_append_len]
    · rw [bitLen, if_neg hbc0, List.length_dropLast]
    · intro b hb
      exact hbytes b (List.dropLast_subset _ hb)

theorem writeStep_spec (s : BitStream) (v n btw : Nat) (hs : s.WF)
    (h1 : 1 ≤ btw) (h2 : btw ≤ 8 - s.bit_count) :
    (writeStep s v n btw).WF ∧
    streamBits (writeStep s v n btw) = streamBits s ++ natBits btw (v >>> (n - btw)) ∧
    bitLen (writeStep s v n btw) = bitLen s + btw := by
  obtain ⟨hbc, hlow, hbytes⟩ := hs
  set bc := s.bit_count with hbcdef
  set seg := (v >>> (n - btw)) &&& ((1 <<< btw) - 1) with hsegdef
  have hsegmod : seg = (v >>> (n - btw)) % 2 ^ btw := by
    rw [hsegdef, Nat.one_shiftLeft, Nat.and_pow_two_sub_one_eq_mod]
  have hseglt : seg < 2 ^ btw := by
    rw [hsegmod]; exact Nat.mod_lt _ (Nat.pos_pow_of_pos btw (by norm_num))
  have hsegbits : natBits btw seg = natBits btw (v >>> (n - btw)) := by
    rw [hsegmod, natBits_mod]
  obtain ⟨init, L, hbuf, hL, hLlow, hstream, hblen, hinitb⟩ :=
    streamBits_decomp s hbc hlow hbytes
  -- abbreviations for the arithmetic decomposition of the updated byte
  set k := 8 - bc - btw with hkdef
  have hk8 : bc + btw + k = 8 := by omega
  set H := L / 2 ^ (8 - bc) with hHdef
  have hpow8 : (2 : Nat) ^ (8 - bc) = 2 ^ btw * 2 ^ k := by
    rw [← pow_add]
    congr 1
    omega
  have hLeq : L = H * 2 ^ (8 - bc) := by
    rw [hHdef, Nat.div_mul_cancel (Nat.dvd_of_mod_eq_zero hLlow)]
  have hHlt : H < 2 ^ bc := by
    rw [hHdef, Nat.div_lt_iff_lt_mul (Nat.pos_pow_of_pos _ (by norm_num))]
    calc L < 256 := hL
    _ = 2 ^ bc * 2 ^ (8 - bc) := by rw [← pow_add, show bc + (8 - bc) = 8 by omega]; norm_num
  have hshift : seg <<< k = seg * 2 ^ k := Nat.shiftLeft_eq seg k
  have hsegk : seg * 2 ^ k < 2 ^ (8 - bc) := by
    rw [hpow8]
    exact Nat.mul_lt_mul_of_lt_of_le hseglt (le_refl _) (Nat.pos_pow_of_pos _ (by norm_num))
  have hor : L ||| seg <<< k = L + seg * 2 ^ k := by
    rw [hshift]
    have := Nat.mul_add_lt_is_or (b := seg * 2 ^ k) (i := 8 - bc) hsegk H
    rw [show (2:Nat) ^ (8 - bc) * H = H * 2 ^ (8 - bc) by ring, ← hLeq] at this
    exact this.symm
  set N := L ||| seg <<< k with hNdef
  have hNdecomp : N = (H * 2 ^ btw + seg) * 2 ^ k := by
    rw [hor, hLeq, hpow8]
    ring
  have hbyteN : byteBits N = (natBits bc H ++ natBits btw seg) ++ natBits k 0 := by
    rw [byteBits, show (8 : Nat) = bc + btw + k from hk8.symm]
    rw [show N = (H * 2 ^ btw + seg) * 2 ^ k + 0 by omega]
    rw [natBits_mul_add (bc + btw) k _ 0 (Nat.pos_pow_of_pos _ (by norm_num))]
    rw [natBits_mul_add bc btw H seg hseglt]
  have hbyteL : byteBits L = natBits bc H ++ natBits (8 - bc) 0 := by
    have h := natBits_mul_add bc (8 - bc) H 0 (Nat.pos_pow_of_pos (8 - bc) (by norm_num))
    rw [Nat.add_zero, show bc + (8 - bc) = 8 by omega, ← hLeq] at h
    rw [byteBits]
    exact h
  have htakeL : (byteBits L).take bc = natBits bc H := by
    rw [hbyteL]
    exact List.take_left' (natBits_length _ _)
  have hMlt : H * 2 ^ btw + seg < 2 ^ (bc + btw) := by
    have hstep : H * 2 ^ btw + seg < (H + 1) * 2 ^ btw := by
      have := Nat.add_lt_add_left hseglt (H * 2 ^ btw)
      calc H * 2 ^ btw + seg < H * 2 ^ btw + 2 ^ btw := this
      _ = (H + 1) * 2 ^ btw := by ring
    calc H * 2 ^ btw + seg < (H + 1) * 2 ^ btw := hstep
    _ ≤ 2 ^ bc * 2 ^ btw := Nat.mul_le_mul_right _ hHlt
    _ = 2 ^ (bc + btw) := by rw [← pow_add]
  have hNlt : N < 256 := by
    rw [hNdecomp]
    calc (H * 2 ^ btw + seg) * 2 ^ k < 2 ^ (bc + btw) * 2 ^ k :=
      (Nat.mul_lt_mul_right (Nat.pos_pow_of_pos _ (by norm_num))).mpr hMlt
    _ = 2 ^ (bc + btw + k) := by rw [← pow_add]
    _ = 256 := by rw [hk8]; norm_num
  have hNmodk : N % 2 ^ k = 0 := by
    rw [hNdecomp]
    exact Nat.mul_mod_left _ _
  have hws : writeStep s v n btw =
      ⟨init ++ [N], if bc + btw = 8 then 0 else bc + btw⟩ := by
    rw [writeStep, ← hbcdef, ← hkdef, hbuf, ← hsegdef]
    congr 1
    rw [orLast, List.dropLast_concat, List.getLast?_concat]
    simp only [Option.getD_some]
  have hflatlen : ((init.map byteBits).flatten).length = 8 * init.length :=
    flatten_byteBits_length init
  have hflatN : ((init ++ [N]).map byteBits).flatten =
      (init.map byteBits).flatten ++ byteBits N := by
    rw [List.map_append, List.flatten_append]
    simp
  rw [hws]
  refine ⟨⟨?_, ?_, ?_⟩, ?_, ?_⟩
  · simp only [BitStream.WF]
    split_ifs <;> omega
  · intro hne
    simp only at hne ⊢
    have hcase : bc + btw ≠ 8 := by
      intro hc
      rw [if_pos hc] at hne
      exact hne rfl
    rw [if_neg hcase] at hne ⊢
    refine ⟨by simp, ?_⟩
    rw [List.getLast?_concat]
    simp only [Option.getD_some]
    rw [show 8 - (bc + btw) = k by omega]
    exact hNmodk
  · intro b hb
    simp only [List.mem_append, List.mem_singleton] at hb
    rcases hb with hb | hb
    · exact hinitb b hb
    · rw [hb]; exact hNlt
  · by_cases hcase : bc + btw = 8
    · have hk0 : k = 0 := by omega
      rw [streamBits, bitLen]
      simp only [if_pos hcase, hflatN, List.length_append, List.length_singleton,
        reduceIte]
      have hlen : ((init.map byteBits).flatten ++ byteBits N).length =
          8 * (init.length + 1) := by
        rw [List.length_append, hflatlen, byteBits, natBits_length]
        ring
      rw [← hlen, List.take_length]
      rw [hbyteN, hk0]
      simp only [natBits, List.append_nil]
      rw [hstream, htakeL, hsegbits]
      rw [List.append_assoc]
    · have hne : bc + btw ≠ 0 := by omega
      rw [streamBits, bitLen]
      simp only [if_neg hcase, if_neg hne, hflatN, List.length_append,
        List.length_singleton]
      rw [show 8 * (init.length + 1 - 1) + (bc + btw) =
        ((init.map byteBits).flatten).length + (bc + btw) by rw [hflatlen]; omega]
      rw [take_append_len, hbyteN]
      rw [List.take_left' (by rw [List.length_append, natBits_length, natBits_length])]
      rw [hstream, htakeL, hsegbits]
      rw [List.append_assoc]
  · rw [bitLen, hblen]
    simp only [List.length_append, List.length_singleton]
    split_ifs <;> omega

theorem writeBitsAux_spec (fuel : Nat) : ∀ (s : BitStream) (v n : Nat), n ≤ fuel → s.WF →
    (writeBitsAux fuel s v n).WF ∧
    streamBits (writeBitsAux fuel s v n) = streamBits s ++ natBits n v ∧
    bitLen (writeBitsAux fuel s v n) = bitLen s + n := by
  induction fuel with
  | zero =>
    intro s v n hn hs
    have hn0 : n = 0 := by omega
    subst hn0
    refine ⟨hs, ?_, ?_⟩ <;> simp [writeBitsAux, natBits]
  | succ fuel ih =>
    intro s v n hn hs
    by_cases hn0 : n = 0
    · subst hn0
      refine ⟨hs, ?_, ?_⟩ <;> simp [writeBitsAux, natBits]
    · have hbc : s.bit_count < 8 := hs.1
      rw [writeBitsAux]
      rw [if_neg hn0]
      simp only
      rw [if_neg (by omega)]
      obtain ⟨hwf2, hstr2, hlen2⟩ :=
        writeStep_spec s v n (min (8 - s.bit_count) n) hs (by omega) (by omega)
      obtain ⟨hwf3, hstr3, hlen3⟩ :=
        ih (writeStep s v n (min (8 - s.bit_count) n)) v (n - min (8 - s.bit_count) n)
          (by omega) hwf2
      refine ⟨hwf3, ?_, by omega⟩
      rw [hstr3, hstr2, List.append_assoc]
      congr 1
      have hsplit := natBits_split (min (8 - s.bit_count) n)
        (n - min (8 - s.bit_count) n) v
      rw [show min (8 - s.bit_count) n + (n - min (8 - s.bit_count) n) = n by omega]
        at hsplit
      rw [hsplit, Nat.shiftRight_eq_div_pow]

theorem write_bits_spec (s : BitStream) (v n : Nat) (hs : s.WF) :
    (write_bits s v n).WF ∧
    streamBits (write_bits s v n) = streamBits s ++ natBits n v ∧
    bitLen (write_bits s v n) = bitLen s + n :=
  writeBitsAux_spec n s v n (le_refl n) hs

/-! ### routing_format.py: Type-1 variable-length values -/

/-- `encode_vlv_type1` (routing_format.py): prefix-coded unsigned VLV,
1–4 bytes (`struct.pack(">I", v)[1:]` is `drop 1` of the 4-byte packing). -/
def encode_vlv_type1 (value : Nat) : List Nat :=
  if value < 0x80 then [value]
  else if value < 0x4000 then packU16 (value ||| 0x8000)
  else if value < 0x200000 then (packU32 (value ||| 0xC00000)).drop 1
  else packU32 (value ||| 0xE0000000)

/-- Arithmetic description of the prefix scheme actually implemented by
`encode_vlv_type1` on the range the claim quantifies over (used as the
amended, spec-side formulation for claim C3). -/
def type1SpecBytes (n : Nat) : List Nat :=
  if n < 128 then [n]
  else if n < 16384 then [128 + n / 256, n % 256]
  else [192 + n / 65536, n / 256 % 256, n % 256]

/-- C3, counterexample: the source encodes 239 as the two bytes
`[0x80, 0xEF]`, not as the single byte `[0xEF]` required by the spec's
offset-based table. -/
theorem C3_counterexample :
    encode_vlv_type1 239 = [0x80, 0xEF] ∧ [(0x80 : Nat), 0xEF] ≠ [0xEF] := by
  decide

/-- C3 (amended): on `[0, 1114095]` the Type-1 encoder emits the prefix
scheme `n < 128 ↦ [n]`, `n < 16384 ↦ [0x80 ∣ (n≫8), n mod 256]`, else
`[0xC0 ∣ (n≫16), (n≫8) mod 256, n mod 256]`; the spec's boundary inputs
`{0,239,240,4079,4080,65519,65520}` therefore encode to `{[00],[80 EF],
[80 F0],[8F EF],[8F F0],[C0 FF EF],[C0 FF F0]}`, and no input fails. -/
theorem C3_type1_prefix (n : Nat) (h : n ≤ 1114095) :
    encode_vlv_type1 n = type1SpecBytes n ∧
    encode_vlv_type1 0 = [0x00] ∧ encode_vlv_type1 239 = [0x80, 0xEF] ∧
    encode_vlv_type1 240 = [0x80, 0xF0] ∧ encode_vlv_type1 4079 = [0x8F, 0xEF] ∧
    encode_vlv_type1 4080 = [0x8F, 0xF0] ∧ encode_vlv_type1 65519 = [0xC0, 0xFF, 0xEF] ∧
    encode_vlv_type1 65520 = [0xC0, 0xFF, 0xF0] := by
  refine ⟨?_, by decide, by decide, by decide, by decide, by decide, by decide, by decide⟩
  by_cases h1 : n < 128
  · simp [encode_vlv_type1, type1SpecBytes, h1]
  · by_cases h2 : n < 16384
    · have hor : n ||| 0x8000 = 32768 + n := by
        rw [Nat.lor_comm]
        have := Nat.mul_add_lt_is_or (b := n) (i := 15) (by omega) 1
        norm_num at this
        omega
      rw [encode_vlv_type1, if_neg (by omega), if_pos (by omega), type1SpecBytes,
        if_neg h1, if_pos h2, hor, packU16]
      simp only [List.cons.injEq, and_true]
      constructor <;> omega
    · have hor : n ||| 0xC00000 = 12582912 + n := by
        rw [Nat.lor_comm]
        have := Nat.mul_add_lt_is_or (b := n) (i := 22) (by omega) 3
        norm_num at this
        omega
      rw [encode_vlv_type1, if_neg (by omega), if_neg (by omega), if_pos (by omega),
        type1SpecBytes, if_neg h1, if_neg h2, hor, packU32]
      simp only [List.drop, List.cons.injEq, and_true]
      refine ⟨by omega, by omega, by omega⟩

/-- C3, witness for the amended theorem at `n = 4079`. -/
theorem C3_witness :
    encode_vlv_type1 4079 = type1SpecBytes 4079 ∧
    encode_vlv_type1 0 = [0x00] ∧ encode_vlv_type1 239 = [0x80, 0xEF] ∧
    encode_vlv_type1 240 = [0x80, 0xF0] ∧ encode_vlv_type1 4079 = [0x8F, 0xEF] ∧
    encode_vlv_type1 4080 = [0x8F, 0xF0] ∧ encode_vlv_type1 65519 = [0xC0, 0xFF, 0xEF] ∧
    encode_vlv_type1 65520 = [0xC0, 0xFF, 0xF0] :=
  C3_type1_prefix 4079 (by norm_num)

/-! ### routing_format.py: Type-5 signed variable-length values -/

/-- `encode_vlv_type5_signed` (routing_format.py): one sign bit, then a
`bit_length - 1`-bit magnitude saturated at the maximum representable
value; `none` models the ValueError raised for `bit_length` outside
`[7, 19]`. -/
def encode_vlv_type5_signed (value : Int) (bs : BitStream) (bit_length : Nat) :
    Option BitStream :=
  if bit_length < 7 ∨ 19 < bit_length then none
  else
    let sign_bit : Nat := if value < 0 then 1 else 0
    let bs1 := write_bits bs sign_bit 1
    let mag_bits := bit_length - 1
    let magnitude := if value.natAbs ≥ 1 <<< mag_bits
                     then (1 <<< mag_bits) - 1 else value.natAbs
    some (write_bits bs1 magnitude mag_bits)

/-- C9: for every integer and every `bit_length ∈ [7, 19]`, the Type-5
signed encoder succeeds (no error path for in-range widths) and appends
exactly `bit_length` bits: a sign bit (1 iff the value is negative)
followed by the `bit_length - 1`-bit magnitude `min |value| (2^(bit_length-1) - 1)`
— magnitudes of `2^(bit_length-1)` or more (beyond ±262,143 NTU at the
default 19-bit width) are silently saturated, i.e. encoded lossily. -/
theorem C9_type5_signed_bits (value : Int) (bs : BitStream) (bit_length : Nat)
    (h7 : 7 ≤ bit_length) (h19 : bit_length ≤ 19) (hwf : bs.WF) :
    ∃ bs2, encode_vlv_type5_signed value bs bit_length = some bs2 ∧
      bs2.WF ∧
      bitLen bs2 = bitLen bs + bit_length ∧
      streamBits bs2 = streamBits bs ++ (if value < 0 then 1 else 0) ::
        natBits (bit_length - 1) (min value.natAbs (2 ^ (bit_length - 1) - 1)) := by
  rw [encode_vlv_type5_signed, if_neg (by omega)]
  refine ⟨_, rfl, ?_, ?_, ?_⟩
  · exact (write_bits_spec _ _ _ (write_bits_spec bs _ 1 hwf).1).1
  · obtain ⟨hwf1, -, hlen1⟩ := write_bits_spec bs (if value < 0 then 1 else 0) 1 hwf
    obtain ⟨-, -, hlen2⟩ := write_bits_spec (write_bits bs (if value < 0 then 1 else 0) 1)
      (if value.natAbs ≥ 1 <<< (bit_length - 1)
       then (1 <<< (bit_length - 1)) - 1 else value.natAbs) (bit_length - 1) hwf1
    rw [hlen2, hlen1]
    omega
  · obtain ⟨hwf1, hstr1, -⟩ := write_bits_spec bs (if value < 0 then 1 else 0) 1 hwf
    obtain ⟨-, hstr2, -⟩ := write_bits_spec (write_bits bs (if value < 0 then 1 else 0) 1)
      (if value.natAbs ≥ 1 <<< (bit_length - 1)
       then (1 <<< (bit_length - 1)) - 1 else value.natAbs) (bit_length - 1) hwf1
    rw [hstr2, hstr1, List.append_assoc]
    congr 1
    have hone : natBits 1 (if value < 0 then 1 else 0) =
        [if value < 0 then 1 else 0] := by
      by_cases hv : value < 0 <;> simp [hv, natBits]
    rw [hone]
    have hsat : (if value.natAbs ≥ 1 <<< (bit_length - 1)
          then (1 <<< (bit_length - 1)) - 1 else value.natAbs) =
        min value.natAbs (2 ^ (bit_length - 1) - 1) := by
      rw [Nat.one_shiftLeft]
      have hpos : 0 < 2 ^ (bit_length - 1) := Nat.pos_pow_of_pos _ (by norm_num)
      by_cases hge : value.natAbs ≥ 2 ^ (bit_length - 1)
      · rw [if_pos hge]
        omega
      · rw [if_neg hge]
        omega
    rw [hsat]
    simp

/-- C9, witness: encoding −300,000 at the default 19-bit width into an
empty stream appends 19 bits — sign 1 and the saturated magnitude. -/
theorem C9_witness :
    ∃ bs2, encode_vlv_type5_signed (-300000) ⟨[], 0⟩ 19 = some bs2 ∧
      bs2.WF ∧
      bitLen bs2 = bitLen ⟨[], 0⟩ + 19 ∧
      streamBits bs2 = streamBits ⟨[], 0⟩ ++ (if (-300000 : Int) < 0 then 1 else 0) ::
        natBits (19 - 1) (min (Int.natAbs (-300000)) (2 ^ (19 - 1) - 1)) :=
  C9_type5_signed_bits (-300000) ⟨[], 0⟩ 19 (by norm_num) (by norm_num)
    ⟨by norm_num, by simp, by simp⟩

/-! ### routing_format.py: coordinates and the routing parcel payload

Python floats are modelled as rationals; `round` is round-half-to-even as
in Python.  A segment's `length_m` is a Python float whose only use in the
encoder is `struct.pack(">f", …)`, so the field is modelled directly as
the resulting 32-bit IEEE-754 pattern (float arithmetic itself is outside
the shallow embedding; no claim below depends on float values). -/

/-- Python `round` on a rational: round half to even. -/
def pyRound (q : ℚ) : Int :=
  let f := ⌊q⌋
  let r := q - (f : ℚ)
  if r < 1/2 then f
  else if 1/2 < r then f + 1
  else if f % 2 = 0 then f else f + 1

/-- The `clamp_32` helper inside `deg_to_ntu`. -/
def clamp_32 (v : Int) : Int :=
  if v < -0x80000000 then -0x80000000
  else if v > 0x7FFFFFFF then 0x7FFFFFFF
  else v

/-- `deg_to_ntu` (routing_format.py): degrees → (lat_ntu, lon_ntu). -/
def deg_to_ntu (lat_deg lon_deg : ℚ) : Int × Int :=
  (clamp_32 (pyRound (lat_deg * 100000)), clamp_32 (pyRound (lon_deg * 100000)))

structure NodeRecord where
  node_id : Nat
  lat_deg : ℚ
  lon_deg : ℚ
  segment_ids : List Nat := []

structure SegmentRecord where
  seg_id : Nat
  from_node_id : Nat
  to_node_id : Nat
  /-- IEEE-754 binary32 pattern of the Python float `length_m`. -/
  length_m : Nat
  speed_class : Nat
  oneway : Nat

/-- `_encode_block_descriptor`: `>HI`. -/
def encode_block_descriptor (block_type entry_count : Nat) : List Nat :=
  packU16 block_type ++ packU32 entry_count

/-- `encode_nodes_block` (routing_format.py).  Each node appends its
Type-1 id to the byte buffer while both Type-5 deltas go into one shared
`BitStream`; the bit stream is appended once, after all ids.  The
`Option.getD` fallback on the Type-5 encoder is unreachable: 19 is inside
its admissible range, so it never returns `none`. -/
def encode_nodes_block (nodes : List NodeRecord)
    (rect_ntu : Int × Int × Int × Int) (scale_shift : Nat) : List Nat :=
  if nodes.isEmpty then []
  else
    let (min_lat_ntu, _, min_lon_ntu, _) := rect_ntu
    let header := encode_block_descriptor 0x0100 nodes.length
    let step := fun (st : List Nat × BitStream × Int × Int) (n : NodeRecord) =>
      let (ids, bs, current_lat, current_lon) := st
      let (lat_ntu, lon_ntu) := deg_to_ntu n.lat_deg n.lon_deg
      let ids := ids ++ encode_vlv_type1 n.node_id
      let bs := (encode_vlv_type5_signed (lon_ntu - current_lon) bs 19).getD bs
      let bs := (encode_vlv_type5_signed (lat_ntu - current_lat) bs 19).getD bs
      (ids, bs, lat_ntu, lon_ntu)
    let res := nodes.foldl step ([], ⟨[], 0⟩, min_lat_ntu, min_lon_ntu)
    header ++ res.1 ++ res.2.1.finalize

/-- `encode_segments_block` (routing_format.py): BlkDesc 0x0200 then per
segment Type-1 ids and the f32 length bytes. -/
def encode_segments_block (segments : List SegmentRecord) : List Nat :=
  if segments.isEmpty then []
  else
    encode_block_descriptor 0x0200 segments.length ++
    (segments.map (fun s =>
      encode_vlv_type1 s.seg_id ++ encode_vlv_type1 s.from_node_id ++
      encode_vlv_type1 s.to_node_id ++ packU32 (s.length_m % 4294967296))).flatten

/-- `_encode_routing_header_0`: `>H I B B I H H H B B B B H H H I`,
32 bytes. -/
def encode_routing_header_0 (node_count seg_count : Nat) : List Nat :=
  packU16 0xFFFF ++ packU32 (seg_count % 4294967296) ++ [0xFF, 0x00] ++
  packU32 (node_count % 4294967296) ++ packU16 0xFFFF ++ packU16 0xFFFF ++
  packU16 0x0001 ++ [0, 0, 0, 0] ++ packU16 0xFFFF ++ packU16 0xFFFF ++
  packU16 0 ++ packU32 0

/-- `_encode_block_offset_array`: `>IIII`, 16 bytes; offsets relative to
the start of the array. -/
def encode_block_offset_array (node_data_offset seg_data_offset : Nat) : List Nat :=
  packU32 (node_data_offset % 4294967296) ++ packU32 (seg_data_offset % 4294967296) ++
  packU32 0 ++ packU32 0

/-- `_encode_spatial_parcel_header_front` (routing_format.py): packs
`_SPTL_HDR_STRUCT = ">iiiiiiiiiiii IHBB H*16 BBHII 4I"`.  Note the
`IHBB` group is 8 bytes although the source comment labels it
"XrfPclHdr_t (20 bytes)", so the whole struct packs 116 bytes, not the
128 announced by `SPTL_PCL_HDR_SIZE` and the comments. -/
def encode_spatial_parcel_header_front (rect_ntu : Int × Int × Int × Int)
    (scale_shift node_count seg_count : Nat) : List Nat :=
  let (min_lat, max_lat, min_lon, max_lon) := rect_ntu
  let dbrect := packI32 min_lon ++ packI32 min_lat ++ packI32 max_lon ++ packI32 max_lat
  dbrect ++ dbrect ++ dbrect ++
  (packU32 0 ++ packU16 0 ++ [0, 0]) ++
  List.replicate 32 0 ++
  ([scale_shift % 256, 1] ++ packU16 0 ++ packU32 (node_count % 4294967296) ++
    packU32 (seg_count % 4294967296)) ++
  List.replicate 16 0

/-- `encode_routing_parcel` steps 1–4 (routing_format.py): the raw payload
assembled before the PclHdr_t wrapping. -/
def encode_routing_parcel_payload (nodes : List NodeRecord)
    (segments : List SegmentRecord) (rect_ntu : Int × Int × Int × Int)
    (scale_shift : Nat) : List Nat :=
  let nodes_block := encode_nodes_block nodes rect_ntu scale_shift
  let segments_block := encode_segments_block segments
  let node_data_offset_from_boa := 16
  let seg_data_offset_from_boa := node_data_offset_from_boa + nodes_block.length
  encode_spatial_parcel_header_front rect_ntu scale_shift nodes.length segments.length ++
  encode_routing_header_0 nodes.length segments.length ++
  encode_block_offset_array node_data_offset_from_boa seg_data_offset_from_boa ++
  nodes_block ++ segments_block

set_option maxRecDepth 4000 in
/-- C5 (code bug): the routing payload is indeed the concatenation
SptlPclHdr ‖ RoutingParcelHeader0 ‖ BlockOffsetArray ‖ nodes ‖ segments,
but the emitted SptlPclHdr occupies 116 bytes — the `IHBB` group of
`_SPTL_HDR_STRUCT` is 8 bytes although the source's own
`SPTL_PCL_HDR_SIZE = 128` and its comments ("ПОЛНЫЙ SPTL_PCL_HDR_T (128
байт)", "XrfPclHdr_t (20 bytes)") require 20 — so RoutingParcelHeader0
starts at byte 116, not 128.  Evaluated at the empty graph. -/
theorem C5_sptl_header_size :
    (encode_spatial_parcel_header_front (0, 0, 0, 0) 12 0 0).length = 116 ∧
    encode_routing_parcel_payload [] [] (0, 0, 0, 0) 12 =
      encode_spatial_parcel_header_front (0, 0, 0, 0) 12 0 0 ++
      encode_routing_header_0 0 0 ++
      encode_block_offset_array 16 16 ++
      encode_nodes_block [] (0, 0, 0, 0) 12 ++
      encode_segments_block [] ∧
    (116 : Nat) ≠ 128 := by
  refine ⟨by decide, by decide, by norm_num⟩

/-! ### spatial.py / main.py: the KDTREE.SDL payload -/

/-- Python `int()` truncation toward zero on a rational. -/
def intTrunc (q : ℚ) : Int := if 0 ≤ q then ⌊q⌋ else -⌊-q⌋

/-- Python `min` over a nonempty rational list (`[]` raises in Python and
never occurs at the call sites). -/
def pyMin : List ℚ → ℚ
  | [] => 0
  | x :: xs => xs.foldl min x

/-- Python `max` over a nonempty rational list. -/
def pyMax : List ℚ → ℚ
  | [] => 0
  | x :: xs => xs.foldl max x

/-- The node loop of `serialize_kdtree` (spatial.py):
`for idx, (x, y) in enumerate(kd.data): pack(">Iii", idx, x*1e6, y*1e6)`. -/
def serialize_nodes : Nat → List (ℚ × ℚ) → List Nat
  | _, [] => []
  | idx, p :: rest =>
    packU32 idx ++ packI32 (intTrunc (p.1 * 1000000)) ++
    packI32 (intTrunc (p.2 * 1000000)) ++ serialize_nodes (idx + 1) rest

/-- `serialize_kdtree` (spatial.py): `cKDTree.data` is the input point
list in input order, so the payload is `u32 count` then the node loop. -/
def serialize_kdtree (points : List (ℚ × ℚ)) : List Nat :=
  packU32 points.length ++ serialize_nodes 0 points

/-- `_encode_kdtree_idx_header` (main.py): `>H H I I I I H H H H` — four
u16 of reserved space, so 28 bytes in total although the source comment
announces 32.  `max_lat`/`max_lon` are accepted and ignored, as in the
source.  The `min_lat`/`min_lon` fields are packed with the UNSIGNED `I`
format: `struct.pack` raises `struct.error` (modelled as `none`) whenever
one of them is negative or does not fit in 32 bits, and likewise for the
`ulIndexLength` field. -/
def encode_kdtree_idx_header (kd_data_len : Nat)
    (min_lat max_lat min_lon max_lon : Int) : Option (List Nat) :=
  if kd_data_len < 4294967296 ∧ 0 ≤ min_lat ∧ min_lat < 4294967296 ∧
      0 ≤ min_lon ∧ min_lon < 4294967296 then
    some (packU16 1 ++ packU16 1 ++ packU32 0 ++ packU32 kd_data_len ++
      packU32 min_lat.toNat ++ packU32 min_lon.toNat ++ packU16 0 ++
      packU16 0 ++ packU16 0 ++ packU16 0)
  else none

/-- Step 2.5 of `build` (main.py): the KDTREE.SDL parcel payload built
from the global POI coordinate list (`(lon, lat)` pairs); the empty set
short-circuits to `b""`, and a `struct.error` from the header packing
(negative minimum NTU coordinate) propagates as `none`. -/
def kdtree_payload (poi_coords : List (ℚ × ℚ)) : Option (List Nat) :=
  if poi_coords.isEmpty then some []
  else
    let kd_data := serialize_kdtree poi_coords
    let min_lat := pyMin (poi_coords.map Prod.snd)
    let min_lon := pyMin (poi_coords.map Prod.fst)
    let max_lat := pyMax (poi_coords.map Prod.snd)
    let max_lon := pyMax (poi_coords.map Prod.fst)
    let mn := deg_to_ntu min_lat min_lon
    let mx := deg_to_ntu max_lat max_lon
    (encode_kdtree_idx_header kd_data.length mn.1 mx.1 mn.2 mx.2).map
      (fun hdr => hdr ++ kd_data)

theorem serialize_nodes_length (points : List (ℚ × ℚ)) :
    ∀ idx, (serialize_nodes idx points).length = 12 * points.length := by
  induction points with
  | nil => intro idx; rfl
  | cons p rest ih =>
    intro idx
    simp only [serialize_nodes, List.length_append, ih, List.length_cons,
      packU32, packI32, List.length_cons, List.length_nil]
    omega

theorem serialize_kdtree_length (points : List (ℚ × ℚ)) :
    (serialize_kdtree points).length = 4 + 12 * points.length := by
  simp only [serialize_kdtree, List.length_append, serialize_nodes_length,
    packU32, List.length_cons, List.length_nil]

theorem clamp_32_bounds (v : Int) :
    -2147483648 ≤ clamp_32 v ∧ clamp_32 v ≤ 2147483647 := by
  rw [clamp_32]
  split
  · norm_num
  · split
    · norm_num
    · constructor <;> omega

theorem encode_kdtree_idx_header_pos (n : Nat) (a b c d : Int)
    (h1 : n < 4294967296) (h2 : 0 ≤ a) (h3 : a < 4294967296)
    (h4 : 0 ≤ c) (h5 : c < 4294967296) :
    encode_kdtree_idx_header n a b c d =
      some (packU16 1 ++ packU16 1 ++ packU32 0 ++ packU32 n ++
        packU32 a.toNat ++ packU32 c.toNat ++ List.replicate 8 0) := by
  rw [encode_kdtree_idx_header, if_pos ⟨h1, h2, h3, h4, h5⟩]
  rfl

theorem encode_kdtree_idx_header_neg (n : Nat) (a b c d : Int)
    (h : a < 0 ∨ c < 0) :
    encode_kdtree_idx_header n a b c d = none := by
  rw [encode_kdtree_idx_header, if_neg]
  rintro ⟨_, h2, _, h4, _⟩
  rcases h with h | h <;> omega

/-- C4, counterexample: for a single POI point at the origin the emitted
`IDxPclHdr` is 28 bytes (the whole payload is 28 + 16 = 44 bytes), not
the 32 the claim requires — the field list `u16,u16,u32,u32,u32,u32`
plus 8 reserved bytes sums to 28. -/
theorem C4_counterexample :
    (encode_kdtree_idx_header 16 0 0 0 0).map List.length = some 28 ∧
    (kdtree_payload [(0, 0)]).map List.length = some (28 + (4 + 12 * 1)) ∧
    (28 : Nat) ≠ 32 := by
  refine ⟨by decide, ?_, by norm_num⟩
  have hsnd : clamp_32 (pyRound (pyMin (List.map Prod.snd [((0 : ℚ), (0 : ℚ))]) * 100000))
      = 0 := by
    norm_num [pyMin, pyRound, clamp_32]
  have hfst : clamp_32 (pyRound (pyMin (List.map Prod.fst [((0 : ℚ), (0 : ℚ))]) * 100000))
      = 0 := by
    norm_num [pyMin, pyRound, clamp_32]
  rw [kdtree_payload, if_neg (by simp)]
  simp only [deg_to_ntu, serialize_kdtree_length, hsnd, hfst]
  rw [encode_kdtree_idx_header_pos _ _ _ _ _ (by norm_num) (by norm_num) (by norm_num)
    (by norm_num) (by norm_num)]
  simp [packU16, packU32, serialize_kdtree_length]

/-- C4 (amended): for every nonempty POI point set whose minimum NTU
latitude and longitude are non-negative the KDTREE.SDL parcel payload is
a 28-byte `IDxPclHdr` — big-endian `u16 index_id=1, u16 index_type=1,
u32 offset=0, u32 length=node_bytes`, then `min_lat_ntu` and
`min_lon_ntu` packed as UNSIGNED u32, then 8 reserved zero bytes —
followed by the KD node block of exactly `4 + 12 × count` bytes
(`u32 count`, then per point `u32 index, i32 lon_e6, i32 lat_e6`); when
either minimum NTU coordinate is negative (any southern or western
minimum) `struct.pack` raises `struct.error` and no payload is produced;
any produced payload has 28 + 4 + 12 × count bytes; the empty point set
produces an empty payload with no header at all. -/
theorem C4_kdtree_payload (poi_coords : List (ℚ × ℚ)) (h : poi_coords ≠ [])
    (hlen : 4 + 12 * poi_coords.length < 4294967296) :
    (0 ≤ clamp_32 (pyRound (pyMin (poi_coords.map Prod.snd) * 100000)) →
      0 ≤ clamp_32 (pyRound (pyMin (poi_coords.map Prod.fst) * 100000)) →
      kdtree_payload poi_coords =
        some ((packU16 1 ++ packU16 1 ++ packU32 0 ++
          packU32 (4 + 12 * poi_coords.length) ++
          packU32 (clamp_32 (pyRound (pyMin (poi_coords.map Prod.snd) * 100000))).toNat ++
          packU32 (clamp_32 (pyRound (pyMin (poi_coords.map Prod.fst) * 100000))).toNat ++
          List.replicate 8 0) ++ serialize_kdtree poi_coords)) ∧
    ((clamp_32 (pyRound (pyMin (poi_coords.map Prod.snd) * 100000)) < 0 ∨
      clamp_32 (pyRound (pyMin (poi_coords.map Prod.fst) * 100000)) < 0) →
      kdtree_payload poi_coords = none) ∧
    (∀ l, kdtree_payload poi_coords = some l →
      l.length = 28 + (4 + 12 * poi_coords.length)) ∧
    (serialize_kdtree poi_coords).length = 4 + 12 * poi_coords.length ∧
    kdtree_payload [] = some [] := by
  have hA := clamp_32_bounds (pyRound (pyMin (poi_coords.map Prod.snd) * 100000))
  have hB := clamp_32_bounds (pyRound (pyMin (poi_coords.map Prod.fst) * 100000))
  have hpos : 0 ≤ clamp_32 (pyRound (pyMin (poi_coords.map Prod.snd) * 100000)) →
      0 ≤ clamp_32 (pyRound (pyMin (poi_coords.map Prod.fst) * 100000)) →
      kdtree_payload poi_coords =
        some ((packU16 1 ++ packU16 1 ++ packU32 0 ++
          packU32 (4 + 12 * poi_coords.length) ++
          packU32 (clamp_32 (pyRound (pyMin (poi_coords.map Prod.snd) * 100000))).toNat ++
          packU32 (clamp_32 (pyRound (pyMin (poi_coords.map Prod.fst) * 100000))).toNat ++
          List.replicate 8 0) ++ serialize_kdtree poi_coords) := by
    intro h1 h2
    rw [kdtree_payload, if_neg (by simp [h])]
    simp only [deg_to_ntu, serialize_kdtree_length]
    rw [encode_kdtree_idx_header_pos _ _ _ _ _ (by omega) h1 (by omega) h2 (by omega)]
    rfl
  have hneg : (clamp_32 (pyRound (pyMin (poi_coords.map Prod.snd) * 100000)) < 0 ∨
      clamp_32 (pyRound (pyMin (poi_coords.map Prod.fst) * 100000)) < 0) →
      kdtree_payload poi_coords = none := by
    intro hs
    rw [kdtree_payload, if_neg (by simp [h])]
    simp only [deg_to_ntu, serialize_kdtree_length]
    rw [encode_kdtree_idx_header_neg _ _ _ _ _ hs]
    rfl
  refine ⟨hpos, hneg, ?_, serialize_kdtree_length poi_coords, rfl⟩
  intro l hl
  by_cases hs : 0 ≤ clamp_32 (pyRound (pyMin (poi_coords.map Prod.snd) * 100000)) ∧
      0 ≤ clamp_32 (pyRound (pyMin (poi_coords.map Prod.fst) * 100000))
  · rw [hpos hs.1 hs.2] at hl
    simp only [Option.some.injEq] at hl
    rw [← hl]
    simp only [List.length_append, packU16, packU32, List.length_cons,
      List.length_nil, List.length_replicate, serialize_kdtree_length]
  · rw [hneg (by omega)] at hl
    exact Option.noConfusion hl

/-- C4, witness for the amended theorem: a single POI at (lon 1°, lat 2°)
produces the 44-byte payload; moving it to lon −1° makes the header
packing fail; the empty set gives the empty payload. -/
theorem C4_witness :
    kdtree_payload [((1 : ℚ), (2 : ℚ))] =
      some ((packU16 1 ++ packU16 1 ++ packU32 0 ++
        packU32 (4 + 12 * [((1 : ℚ), (2 : ℚ))].length) ++
        packU32 (clamp_32 (pyRound (pyMin ([((1 : ℚ), (2 : ℚ))].map Prod.snd) * 100000))).toNat ++
        packU32 (clamp_32 (pyRound (pyMin ([((1 : ℚ), (2 : ℚ))].map Prod.fst) * 100000))).toNat ++
        List.replicate 8 0) ++ serialize_kdtree [((1 : ℚ), (2 : ℚ))]) ∧
    kdtree_payload [((-1 : ℚ), (2 : ℚ))] = none ∧
    kdtree_payload [] = some [] :=
  ⟨(C4_kdtree_payload [((1 : ℚ), (2 : ℚ))] (by simp) (by norm_num)).1
      (by norm_num [pyMin, pyRound, clamp_32]) (by norm_num [pyMin, pyRound, clamp_32]),
   (C4_kdtree_payload [((-1 : ℚ), (2 : ℚ))] (by simp) (by norm_num)).2.1
      (Or.inr (by norm_num [pyMin, pyRound, clamp_32])),
   (C4_kdtree_payload [((1 : ℚ), (2 : ℚ))] (by simp) (by norm_num)).2.2.2.2⟩

/-! ### main.py: topology entries and the CARTOTOP.SDL payload -/

structure TopologyEntry where
  db_id : Nat
  sdl_name : String
  parcel_id : Nat
  offset_units : Nat
  rect_min_lat_ntu : Int
  rect_max_lat_ntu : Int
  rect_min_lon_ntu : Int
  rect_max_lon_ntu : Int
  scale_min : Nat
  scale_max : Nat
  layer_type : Nat

/-- Python `min` over a nonempty integer list. -/
def pyMinI : List Int → Int
  | [] => 0
  | x :: xs => xs.foldl min x

/-- Python `max` over a nonempty integer list. -/
def pyMaxI : List Int → Int
  | [] => 0
  | x :: xs => xs.foldl max x

/-- The per-entry record written by `write_cartotop_sdl`. -/
def cartotopRecord (e : TopologyEntry) : List Nat :=
  packI32 e.rect_min_lon_ntu ++ packI32 e.rect_min_lat_ntu ++
  packI32 e.rect_max_lon_ntu ++ packI32 e.rect_max_lat_ntu ++
  packU16 e.db_id ++ packU16 e.parcel_id ++ packU16 e.layer_type ++
  packU16 e.scale_min ++ packU16 e.scale_max ++ [0, 0]

/-- The payload assembled by `write_cartotop_sdl` (main.py): 18 zero bytes
when there are no entries, else the MBR, the entry count, and one record
per entry in order. -/
def write_cartotop_payload (entries : List TopologyEntry) : List Nat :=
  if entries.isEmpty then List.replicate 18 0
  else
    let min_lat := pyMinI (entries.map (·.rect_min_lat_ntu))
    let max_lat := pyMaxI (entries.map (·.rect_max_lat_ntu))
    let min_lon := pyMinI (entries.map (·.rect_min_lon_ntu))
    let max_lon := pyMaxI (entries.map (·.rect_max_lon_ntu))
    packI32 min_lon ++ packI32 min_lat ++ packI32 max_lon ++ packI32 max_lat ++
    packU16 entries.length ++
    (entries.map cartotopRecord).flatten

/-- Field bounds under which Python `struct.pack` accepts a topology
entry (`>i` and `>H` raise outside these ranges). -/
def TopologyEntry.InRange (e : TopologyEntry) : Prop :=
  -2 ^ 31 ≤ e.rect_min_lat_ntu ∧ e.rect_min_lat_ntu < 2 ^ 31 ∧
  -2 ^ 31 ≤ e.rect_max_lat_ntu ∧ e.rect_max_lat_ntu < 2 ^ 31 ∧
  -2 ^ 31 ≤ e.rect_min_lon_ntu ∧ e.rect_min_lon_ntu < 2 ^ 31 ∧
  -2 ^ 31 ≤ e.rect_max_lon_ntu ∧ e.rect_max_lon_ntu < 2 ^ 31 ∧
  e.db_id < 65536 ∧ e.parcel_id < 65536 ∧ e.layer_type < 65536 ∧
  e.scale_min < 65536 ∧ e.scale_max < 65536

theorem foldl_min_le_init (xs : List Int) : ∀ init, xs.foldl min init ≤ init := by
  induction xs with
  | nil => intro init; exact le_refl _
  | cons x xs ih =>
    intro init
    exact le_trans (ih (min init x)) (min_le_left _ _)

theorem foldl_min_le_mem (xs : List Int) : ∀ init y, y ∈ xs → xs.foldl min init ≤ y := by
  induction xs with
  | nil => intro _ y hy; cases hy
  | cons x xs ih =>
    intro init y hy
    rcases List.mem_cons.mp hy with hy | hy
    · rw [hy]
      exact le_trans (foldl_min_le_init xs (min init x)) (min_le_right _ _)
    · exact ih (min init x) y hy

theorem foldl_min_cases (xs : List Int) : ∀ init,
    xs.foldl min init = init ∨ xs.foldl min init ∈ xs := by
  induction xs with
  | nil => intro init; exact Or.inl rfl
  | cons x xs ih =>
    intro init
    rcases ih (min init x) with h | h
    · rcases min_choice init x with hc | hc
      · exact Or.inl (by rw [List.foldl_cons, h, hc])
      · refine Or.inr ?_
        rw [List.foldl_cons, h, hc]
        exact List.mem_cons_self _ _
    · exact Or.inr (List.mem_cons_of_mem _ h)

theorem foldl_max_init_le (xs : List Int) : ∀ init, init ≤ xs.foldl max init := by
  induction xs with
  | nil => intro init; exact le_refl _
  | cons x xs ih =>
    intro init
    exact le_trans (le_max_left _ _) (ih (max init x))

theorem foldl_max_mem_le (xs : List Int) : ∀ init y, y ∈ xs → y ≤ xs.foldl max init := by
  induction xs with
  | nil => intro _ y hy; cases hy
  | cons x xs ih =>
    intro init y hy
    rcases List.mem_cons.mp hy with hy | hy
    · rw [hy]
      exact le_trans (le_max_right _ _) (foldl_max_init_le xs (max init x))
    · exact ih (max init x) y hy

theorem foldl_max_cases (xs : List Int) : ∀ init,
    xs.foldl max init = init ∨ xs.foldl max init ∈ xs := by
  induction xs with
  | nil => intro init; exact Or.inl rfl
  | cons x xs ih =>
    intro init
    rcases ih (max init x) with h | h
    · rcases max_choice init x with hc | hc
      · exact Or.inl (by rw [List.foldl_cons, h, hc])
      · refine Or.inr ?_
        rw [List.foldl_cons, h, hc]
        exact List.mem_cons_self _ _
    · exact Or.inr (List.mem_cons_of_mem _ h)

theorem pyMinI_le (l : List Int) (y : Int) (hy : y ∈ l) : pyMinI l ≤ y := by
  cases l with
  | nil => cases hy
  | cons x xs =>
    rcases List.mem_cons.mp hy with h | h
    · rw [h]; exact foldl_min_le_init xs x
    · exact foldl_min_le_mem xs x y h

theorem pyMinI_mem (l : List Int) (h : l ≠ []) : pyMinI l ∈ l := by
  cases l with
  | nil => exact absurd rfl h
  | cons x xs =>
    rcases foldl_min_cases xs x with hc | hc
    · rw [pyMinI, hc]; exact List.mem_cons_self _ _
    · exact List.mem_cons_of_mem _ hc

theorem pyMaxI_le (l : List Int) (y : Int) (hy : y ∈ l) : y ≤ pyMaxI l := by
  cases l with
  | nil => cases hy
  | cons x xs =>
    rcases List.mem_cons.mp hy with h | h
    · rw [h]; exact foldl_max_init_le xs x
    · exact foldl_max_mem_le xs x y h

theorem pyMaxI_mem (l : List Int) (h : l ≠ []) : pyMaxI l ∈ l := by
  cases l with
  | nil => exact absurd rfl h
  | cons x xs =>
    rcases foldl_max_cases xs x with hc | hc
    · rw [pyMaxI, hc]; exact List.mem_cons_self _ _
    · exact List.mem_cons_of_mem _ hc

/-- C7, counterexample: for the empty entry list the CARTOTOP payload is
18 zero bytes, not the empty byte string the claim requires. -/
theorem C7_counterexample :
    write_cartotop_payload [] = List.replicate 18 0 ∧
    List.replicate 18 (0 : Nat) ≠ [] := by
  refine ⟨rfl, by decide⟩

/-- C7 (amended): for a nonempty entry list (with fields in the ranges
`struct.pack` accepts) the payload is the four big-endian i32 values
min_lon, min_lat, max_lon, max_lat of the component-wise minimum bounding
rectangle over all entries — each bound is attained by some entry and
bounds every entry — then `u16 entry_count`, then one record per entry in
order (`i32 min_lon, min_lat, max_lon, max_lat, u16 db_id, parcel_id_low,
layer_type, scale_min, scale_max, u16 reserved=0`); for the empty list the
payload is 18 zero bytes rather than empty. -/
theorem C7_cartotop_payload (entries : List TopologyEntry)
    (hne : entries ≠ []) (hcount : entries.length < 65536)
    (hrange : ∀ e ∈ entries, e.InRange) :
    write_cartotop_payload entries =
      packI32 (pyMinI (entries.map (·.rect_min_lon_ntu))) ++
      packI32 (pyMinI (entries.map (·.rect_min_lat_ntu))) ++
      packI32 (pyMaxI (entries.map (·.rect_max_lon_ntu))) ++
      packI32 (pyMaxI (entries.map (·.rect_max_lat_ntu))) ++
      packU16 entries.length ++
      (entries.map cartotopRecord).flatten ∧
    (∀ e ∈ entries,
      pyMinI (entries.map (·.rect_min_lon_ntu)) ≤ e.rect_min_lon_ntu ∧
      pyMinI (entries.map (·.rect_min_lat_ntu)) ≤ e.rect_min_lat_ntu ∧
      e.rect_max_lon_ntu ≤ pyMaxI (entries.map (·.rect_max_lon_ntu)) ∧
      e.rect_max_lat_ntu ≤ pyMaxI (entries.map (·.rect_max_lat_ntu))) ∧
    pyMinI (entries.map (·.rect_min_lon_ntu)) ∈ entries.map (·.rect_min_lon_ntu) ∧
    pyMinI (entries.map (·.rect_min_lat_ntu)) ∈ entries.map (·.rect_min_lat_ntu) ∧
    pyMaxI (entries.map (·.rect_max_lon_ntu)) ∈ entries.map (·.rect_max_lon_ntu) ∧
    pyMaxI (entries.map (·.rect_max_lat_ntu)) ∈ entries.map (·.rect_max_lat_ntu) := by
  have hmapne : ∀ f : TopologyEntry → Int, entries.map f ≠ [] := by
    intro f hmap
    exact hne (List.map_eq_nil.mp hmap)
  refine ⟨?_, ?_, pyMinI_mem _ (hmapne _), pyMinI_mem _ (hmapne _),
    pyMaxI_mem _ (hmapne _), pyMaxI_mem _ (hmapne _)⟩
  · rw [write_cartotop_payload, if_neg (by simp [hne])]
  · intro e he
    exact ⟨pyMinI_le _ _ (List.mem_map_of_mem _ he),
      pyMinI_le _ _ (List.mem_map_of_mem _ he),
      pyMaxI_le _ _ (List.mem_map_of_mem _ he),
      pyMaxI_le _ _ (List.mem_map_of_mem _ he)⟩

/-- A concrete topology entry used by the C7 witness. -/
def sampleEntry : TopologyEntry :=
  ⟨1, "X1.SDL", 2, 0, 10, 20, 30, 40, 0, 65535, 0⟩

/-- C7, witness at a concrete one-entry list. -/
theorem C7_witness :
    write_cartotop_payload [sampleEntry] =
      packI32 (pyMinI ([sampleEntry].map (·.rect_min_lon_ntu))) ++
      packI32 (pyMinI ([sampleEntry].map (·.rect_min_lat_ntu))) ++
      packI32 (pyMaxI ([sampleEntry].map (·.rect_max_lon_ntu))) ++
      packI32 (pyMaxI ([sampleEntry].map (·.rect_max_lat_ntu))) ++
      packU16 [sampleEntry].length ++
      ([sampleEntry].map cartotopRecord).flatten :=
  (C7_cartotop_payload [sampleEntry] (by simp) (by simp)
    (by intro e he
        simp only [List.mem_singleton] at he
        subst he
        exact ⟨by decide, by decide, by decide, by decide, by decide,
          by decide, by decide, by decide, by decide, by decide,
          by decide, by decide, by decide⟩)).1

/-! ### main.py: the region-file assembler (OEM and SDAL modes) -/

structure ParcelBuilder where
  pid : Nat
  layer_type : Nat
  make : Nat → List Nat
  /-- `(min_lat, max_lat, min_lon, max_lon)` in NTU. -/
  rect : Int × Int × Int × Int
  scale_min : Nat
  scale_max : Nat

/-- The `TopologyEntry(...)` literal appended by both assembler loops. -/
def mkTopologyEntry (db_id : Nat) (sdl_name : String) (pb : ParcelBuilder)
    (offset_units : Nat) : TopologyEntry :=
  ⟨db_id, sdl_name, pb.pid, offset_units, pb.rect.1, pb.rect.2.1,
   pb.rect.2.2.1, pb.rect.2.2.2, pb.scale_min, pb.scale_max, pb.layer_type⟩

/-- The parcel loop shared verbatim by `build_region_sdl_file_sdal` and
`build_region_sdl_file_oem` (main.py): `offset_units = offset_bytes >> 12`;
build; write; zero-pad to the 4096-byte unit (`(-len) & 4095`); append one
topology entry.  Returns the bytes written by the loop and the entries. -/
def assembleParcels (db_id : Nat) (sdl_name : String) :
    List ParcelBuilder → Nat → List Nat × List TopologyEntry
  | [], _ => ([], [])
  | pb :: rest, offset_bytes =>
    let offset_units := offset_bytes >>> 12
    let parcel_bytes := pb.make offset_units
    let pad := (4096 - parcel_bytes.length % 4096) % 4096
    let next := assembleParcels db_id sdl_name rest
      (offset_bytes + parcel_bytes.length + pad)
    (parcel_bytes ++ List.replicate pad 0 ++ next.1,
     mkTopologyEntry db_id sdl_name pb offset_units :: next.2)

/-- `build_region_sdl_file_oem` (main.py): parcels start at byte 0. -/
def build_region_sdl_file_oem (db_id : Nat) (sdl_name : String)
    (parcel_builders : List ParcelBuilder) : List Nat × List TopologyEntry :=
  assembleParcels db_id sdl_name parcel_builders 0

/-- `_encode_region_header` (main.py): `>IIII`, `>HHHH`, the 256-byte
layer table (all zero — the two entries assigned are assigned 0), padded
to 512 bytes. -/
def encode_region_header (db_id : Nat) : List Nat :=
  let core := packU32 db_id ++ packU32 0 ++ packU32 0 ++ packU32 0 ++
    packU16 1 ++ packU16 7 ++ packU16 1999 ++ packU16 0 ++ List.replicate 256 0
  core ++ List.replicate (512 - core.length) 0

/-- `build_region_sdl_file_sdal` (main.py): RgnHdr_t padded to the next
4096-byte boundary, then the shared parcel loop. -/
def build_region_sdl_file_sdal (db_id : Nat) (sdl_name : String)
    (parcel_builders : List ParcelBuilder) : List Nat × List TopologyEntry :=
  let region_header := encode_region_header db_id
  let pad_to_unit := (4096 - region_header.length % 4096) % 4096
  let offset_bytes := region_header.length + pad_to_unit
  let next := assembleParcels db_id sdl_name parcel_builders offset_bytes
  (region_header ++ List.replicate pad_to_unit 0 ++ next.1, next.2)

/-- Byte offset (from the start of the file) at which each parcel of the
loop begins. -/
def parcelOffsets : List ParcelBuilder → Nat → List Nat
  | [], _ => []
  | pb :: rest, offset_bytes =>
    let len := (pb.make (offset_bytes >>> 12)).length
    offset_bytes :: parcelOffsets rest (offset_bytes + len + (4096 - len % 4096) % 4096)

theorem packU16_length (v : Nat) : (packU16 v).length = 2 := rfl

theorem packU32_length (v : Nat) : (packU32 v).length = 4 := rfl

theorem encode_region_header_length (db_id : Nat) :
    (encode_region_header db_id).length = 512 := by
  simp only [encode_region_header, List.length_append, List.length_replicate,
    packU32_length, packU16_length]

theorem drop_append_len {α : Type} (a b : List α) (n : Nat) :
    (a ++ b).drop (a.length + n) = b.drop n := by
  induction a with
  | nil => simp
  | cons x xs ih => simp only [List.cons_append, List.length_cons, Nat.succ_add,
      List.drop_succ_cons, ih]

/-- Dropping past a two-part prefix of known combined length. -/
theorem drop_header {α : Type} (P R T : List α) (off : Nat)
    (h : P.length + R.length ≤ off) :
    (P ++ R ++ T).drop off = T.drop (off - (P.length + R.length)) := by
  rw [List.append_assoc,
    show off = P.length + (R.length + (off - (P.length + R.length))) by omega,
    drop_append_len, drop_append_len]
  congr 1
  omega

theorem parcelOffsets_length (pbs : List ParcelBuilder) :
    ∀ start, (parcelOffsets pbs start).length = pbs.length := by
  induction pbs with
  | nil => intro start; rfl
  | cons pb rest ih => intro start; simp [parcelOffsets, ih]

theorem parcelOffsets_ge (pbs : List ParcelBuilder) :
    ∀ start i, i < pbs.length → start ≤ (parcelOffsets pbs start).getD i 0 := by
  induction pbs with
  | nil => intro start i hi; cases hi
  | cons pb rest ih =>
    intro start i hi
    cases i with
    | zero => simp [parcelOffsets]
    | succ i =>
      simp only [parcelOffsets, List.getD_cons_succ]
      calc start ≤ start + (pb.make (start >>> 12)).length +
          (4096 - (pb.make (start >>> 12)).length % 4096) % 4096 := by omega
      _ ≤ _ := ih _ i (by simpa using hi)

theorem assembleParcels_spec (db_id : Nat) (sdl_name : String)
    (pbs : List ParcelBuilder) : ∀ start, start % 4096 = 0 →
    ((assembleParcels db_id sdl_name pbs start).2 =
      List.zipWith (fun pb o => mkTopologyEntry db_id sdl_name pb (o >>> 12))
        pbs (parcelOffsets pbs start)) ∧
    ∀ i, (h : i < pbs.length) →
      (parcelOffsets pbs start).getD i 0 % 4096 = 0 ∧
      (((assembleParcels db_id sdl_name pbs start).1).drop
          ((parcelOffsets pbs start).getD i 0 - start)).take
          ((pbs.get ⟨i, h⟩).make ((parcelOffsets pbs start).getD i 0 >>> 12)).length
        = (pbs.get ⟨i, h⟩).make ((parcelOffsets pbs start).getD i 0 >>> 12) := by
  induction pbs with
  | nil =>
    intro start hstart
    exact ⟨rfl, fun i hi => absurd hi (by simp)⟩
  | cons pb rest ih =>
    intro start hstart
    have hstart2 : (start + (pb.make (start >>> 12)).length +
        (4096 - (pb.make (start >>> 12)).length % 4096) % 4096) % 4096 = 0 := by
      omega
    obtain ⟨ihtops, ihidx⟩ := ih _ hstart2
    constructor
    · simp only [assembleParcels, parcelOffsets, List.zipWith_cons_cons]
      rw [ihtops]
    · intro i hi
      cases i with
      | zero =>
        refine ⟨by simpa [parcelOffsets] using hstart, ?_⟩
        simp only [assembleParcels, parcelOffsets, List.getD_cons_zero,
          Nat.sub_self, List.drop_zero, List.get]
        rw [List.append_assoc]
        exact List.take_left' rfl
      | succ i =>
        have hi2 : i < rest.length := by simpa using hi
        obtain ⟨hoff, htake⟩ := ihidx i hi2
        refine ⟨by simpa [parcelOffsets] using hoff, ?_⟩
        simp only [assembleParcels, parcelOffsets, List.getD_cons_succ, List.get]
        have hge := parcelOffsets_ge rest
          (start + (pb.make (start >>> 12)).length +
            (4096 - (pb.make (start >>> 12)).length % 4096) % 4096) i hi2
        rw [drop_header (pb.make (start >>> 12))
          (List.replicate ((4096 - (pb.make (start >>> 12)).length % 4096) % 4096) 0)
          ((assembleParcels db_id sdl_name rest
            (start + (pb.make (start >>> 12)).length +
              (4096 - (pb.make (start >>> 12)).length % 4096) % 4096)).1)
          ((parcelOffsets rest
            (start + (pb.make (start >>> 12)).length +
              (4096 - (pb.make (start >>> 12)).length % 4096) % 4096)).getD i 0 - start)
          (by rw [List.length_replicate]; omega)]
        rw [List.length_replicate]
        have harith :
            (parcelOffsets rest
              (start + (pb.make (start >>> 12)).length +
                (4096 - (pb.make (start >>> 12)).length % 4096) % 4096)).getD i 0 -
              start -
              ((pb.make (start >>> 12)).length +
                (4096 - (pb.make (start >>> 12)).length % 4096) % 4096) =
            (parcelOffsets rest
              (start + (pb.make (start >>> 12)).length +
                (4096 - (pb.make (start >>> 12)).length % 4096) % 4096)).getD i 0 -
              (start + (pb.make (start >>> 12)).length +
                (4096 - (pb.make (start >>> 12)).length % 4096) % 4096) := by
          omega
        rw [harith]
        exact htake

/-- C2: in both assembler modes the parcels are written in the exact
order supplied; parcel `i` starts at a byte offset that is a multiple of
4096 and equals `offset_units × 4096` for the `offset_units` value passed
to that parcel's build closure; and exactly one topology entry per parcel
is appended, in writing order, carrying that same `offset_units`.  In OEM
mode parcels start at byte 0; in SDAL mode the 512-byte RgnHdr is padded
to 4096 and parcels start there. -/
theorem C2_region_assembler (db_id : Nat) (sdl_name : String)
    (pbs : List ParcelBuilder) :
    ((build_region_sdl_file_oem db_id sdl_name pbs).2 =
      List.zipWith (fun pb o => mkTopologyEntry db_id sdl_name pb (o >>> 12))
        pbs (parcelOffsets pbs 0) ∧
     (parcelOffsets pbs 0).length = pbs.length ∧
     ∀ i, (h : i < pbs.length) →
       ((parcelOffsets pbs 0).getD i 0 >>> 12) * 4096 = (parcelOffsets pbs 0).getD i 0 ∧
       (((build_region_sdl_file_oem db_id sdl_name pbs).1).drop
           ((parcelOffsets pbs 0).getD i 0)).take
           ((pbs.get ⟨i, h⟩).make ((parcelOffsets pbs 0).getD i 0 >>> 12)).length
         = (pbs.get ⟨i, h⟩).make ((parcelOffsets pbs 0).getD i 0 >>> 12)) ∧
    ((build_region_sdl_file_sdal db_id sdl_name pbs).2 =
      List.zipWith (fun pb o => mkTopologyEntry db_id sdl_name pb (o >>> 12))
        pbs (parcelOffsets pbs 4096) ∧
     (parcelOffsets pbs 4096).length = pbs.length ∧
     ∀ i, (h : i < pbs.length) →
       ((parcelOffsets pbs 4096).getD i 0 >>> 12) * 4096
         = (parcelOffsets pbs 4096).getD i 0 ∧
       (((build_region_sdl_file_sdal db_id sdl_name pbs).1).drop
           ((parcelOffsets pbs 4096).getD i 0)).take
           ((pbs.get ⟨i, h⟩).make ((parcelOffsets pbs 4096).getD i 0 >>> 12)).length
         = (pbs.get ⟨i, h⟩).make ((parcelOffsets pbs 4096).getD i 0 >>> 12)) := by
  have hdiv : ∀ o : Nat, o % 4096 = 0 → (o >>> 12) * 4096 = o := by
    intro o ho
    rw [Nat.shiftRight_eq_div_pow]
    have h2 : (2 : Nat) ^ 12 = 4096 := by norm_num
    rw [h2]
    omega
  obtain ⟨htops0, hidx0⟩ := assembleParcels_spec db_id sdl_name pbs 0 rfl
  obtain ⟨htops4, hidx4⟩ := assembleParcels_spec db_id sdl_name pbs 4096 rfl
  have hHlen := encode_region_header_length db_id
  refine ⟨⟨htops0, parcelOffsets_length pbs 0, ?_⟩,
    ⟨?_, parcelOffsets_length pbs 4096, ?_⟩⟩
  · intro i hi
    obtain ⟨ho, ht⟩ := hidx0 i hi
    refine ⟨hdiv _ ho, ?_⟩
    rw [build_region_sdl_file_oem]
    rw [show (parcelOffsets pbs 0).getD i 0 =
      (parcelOffsets pbs 0).getD i 0 - 0 by omega]
    exact ht
  · simp only [build_region_sdl_file_sdal, hHlen]
    rw [show (4096 - 512 % 4096) % 4096 = 3584 by norm_num,
      show (512 + 3584 : Nat) = 4096 by norm_num]
    exact htops4
  · intro i hi
    obtain ⟨ho, ht⟩ := hidx4 i hi
    refine ⟨hdiv _ ho, ?_⟩
    have hge := parcelOffsets_ge pbs 4096 i hi
    simp only [build_region_sdl_file_sdal, hHlen]
    rw [show (4096 - 512 % 4096) % 4096 = 3584 by norm_num,
      show (512 + 3584 : Nat) = 4096 by norm_num]
    rw [drop_header (encode_region_header db_id) (List.replicate 3584 0)
      ((assembleParcels db_id sdl_name pbs 4096).1)
      ((parcelOffsets pbs 4096).getD i 0)
      (by rw [hHlen, List.length_replicate]; omega)]
    rw [hHlen, List.length_replicate,
      show (512 + 3584 : Nat) = 4096 by norm_num]
    exact ht

/-- C2, witness: one builder emitting a 5-byte parcel; the instantiated
topology-entry equation of the OEM conjunct. -/
theorem C2_witness :
    (build_region_sdl_file_oem 1 "X1.SDL"
        [⟨2000, 0, fun u => [u, 1, 2, 3, 4], (0, 0, 0, 0), 0, 65535⟩]).2 =
      List.zipWith (fun pb o => mkTopologyEntry 1 "X1.SDL" pb (o >>> 12))
        [⟨2000, 0, fun u => [u, 1, 2, 3, 4], (0, 0, 0, 0), 0, 65535⟩]
        (parcelOffsets [⟨2000, 0, fun u => [u, 1, 2, 3, 4], (0, 0, 0, 0), 0, 65535⟩] 0) :=
  (C2_region_assembler 1 "X1.SDL"
    [⟨2000, 0, fun u => [u, 1, 2, 3, 4], (0, 0, 0, 0), 0, 65535⟩]).1.1


/-! ### szip_compressor.py: LZ77 matcher and tokenizer -/

inductive LZ77Token where
  | literal (value : Nat)
  | matchTok (offset length : Nat)
deriving DecidableEq

/-- The inner `for i in range(1, max_len_to_check + 1)` loop of
`find_best_match`: counts consecutive equal bytes, stopping at the first
mismatch, at the end of the search buffer (`a < bufEnd` fails) or at the
length cap (`limit`). -/
def matchRun (data : List Nat) (bufEnd : Nat) : Nat → Nat → Nat → Nat
  | _, _, 0 => 0
  | a, b, limit + 1 =>
    if a < bufEnd ∧ data.getD a 0 = data.getD b 0 then
      1 + matchRun data bufEnd (a + 1) (b + 1) limit
    else 0

/-- Candidate match length at lookback offset `o`: the run of equal bytes
between `data[pos-o..]` and `data[pos..]`, capped by the window (the match
may not cross `pos`), by 258, and by the end of the input. -/
def candLen (data : List Nat) (pos o : Nat) : Nat :=
  matchRun data pos (pos - o) pos (min 258 (data.length - pos))

/-- The outer loop of `find_best_match` over `offset_index` from
`n - 1` down to 0 (the first argument is one above the current index);
a candidate only replaces `best` when it is at least 3 long and strictly
longer, and the loop stops early on reaching length 258. -/
def fbmLoop (data : List Nat) (pos start_search : Nat) :
    Nat → Nat × Nat → Nat × Nat
  | 0, best => best
  | oi + 1, best =>
    let current_offset := pos - (start_search + oi)
    let match_len := matchRun data pos (start_search + oi) pos
      (min 258 (data.length - pos))
    if 3 ≤ match_len ∧ best.2 < match_len then
      if match_len = 258 then (current_offset, match_len)
      else fbmLoop data pos start_search oi (current_offset, match_len)
    else fbmLoop data pos start_search oi best

/-- `find_best_match` (szip_compressor.py). -/
def find_best_match (data : List Nat) (pos : Nat) : Nat × Nat :=
  let start_search := pos - 32768
  fbmLoop data pos start_search (pos - start_search) (0, 0)

/-- `lz77_tokenize`'s `while current_pos < data_len` loop; each iteration
advances by at least one byte, so `data.length` is enough fuel. -/
def lz77_tokenizeAux (data : List Nat) : Nat → Nat → List LZ77Token
  | 0, _ => []
  | fuel + 1, current_pos =>
    if current_pos < data.length then
      let r := find_best_match data current_pos
      if 3 ≤ r.2 then
        .matchTok r.1 r.2 :: lz77_tokenizeAux data fuel (current_pos + r.2)
      else
        .literal (data.getD current_pos 0) :: lz77_tokenizeAux data fuel (current_pos + 1)
    else []

/-- `lz77_tokenize` (szip_compressor.py). -/
def lz77_tokenize (data : List Nat) : List LZ77Token :=
  lz77_tokenizeAux data data.length 0

/-- The token stream starting from an arbitrary position. -/
def tokenizeFrom (data : List Nat) (pos : Nat) : List LZ77Token :=
  lz77_tokenizeAux data (data.length - pos) pos

/-- What the matcher is claimed to return: either no candidate of length
≥ 3 exists in the window and the result is `(0, 0)`, or the result is a
match of the maximum candidate length (≥ 3, ≤ 258) at the closest
(smallest) offset achieving it. -/
def ResultProps (data : List Nat) (pos w : Nat) (r : Nat × Nat) : Prop :=
  (r = (0, 0) ∧ ∀ o, 1 ≤ o → o ≤ w → candLen data pos o < 3) ∨
  (3 ≤ r.2 ∧ r.2 ≤ 258 ∧ 1 ≤ r.1 ∧ r.1 ≤ w ∧ candLen data pos r.1 = r.2 ∧
   (∀ o, 1 ≤ o → o ≤ w → candLen data pos o ≤ r.2) ∧
   (∀ o, 1 ≤ o → o < r.1 → candLen data pos o < r.2))

/-- Loop invariant for `fbmLoop`: `best` summarizes the already-scanned
offsets `1..k` and, when set, is still below the early-exit length 258. -/
def LoopInv (data : List Nat) (pos k : Nat) (best : Nat × Nat) : Prop :=
  (best = (0, 0) ∧ ∀ o, 1 ≤ o → o ≤ k → candLen data pos o < 3) ∨
  (3 ≤ best.2 ∧ best.2 < 258 ∧ 1 ≤ best.1 ∧ best.1 ≤ k ∧
   candLen data pos best.1 = best.2 ∧
   (∀ o, 1 ≤ o → o ≤ k → candLen data pos o ≤ best.2) ∧
   (∀ o, 1 ≤ o → o < best.1 → candLen data pos o < best.2))

theorem matchRun_le (data : List Nat) (bufEnd : Nat) :
    ∀ limit a b, matchRun data bufEnd a b limit ≤ limit := by
  intro limit
  induction limit with
  | zero => intro a b; exact le_refl _
  | succ limit ih =>
    intro a b
    rw [matchRun]
    split
    · have := ih (a + 1) (b + 1)
      omega
    · omega

theorem matchRun_spec (data : List Nat) (bufEnd : Nat) :
    ∀ limit a b,
      (∀ j, j < matchRun data bufEnd a b limit →
        a + j < bufEnd ∧ data.getD (a + j) 0 = data.getD (b + j) 0) ∧
      (matchRun data bufEnd a b limit < limit →
        ¬(a + matchRun data bufEnd a b limit < bufEnd ∧
          data.getD (a + matchRun data bufEnd a b limit) 0 =
            data.getD (b + matchRun data bufEnd a b limit) 0)) := by
  intro limit
  induction limit with
  | zero =>
    intro a b
    exact ⟨fun j hj => absurd hj (by simp [matchRun]), fun h => absurd h (by simp)⟩
  | succ limit ih =>
    intro a b
    rw [matchRun]
    split
    case isTrue hcond =>
      obtain ⟨ih1, ih2⟩ := ih (a + 1) (b + 1)
      constructor
      · intro j hj
        cases j with
        | zero => simpa using hcond
        | succ j =>
          have hj2 : j < matchRun data bufEnd (a + 1) (b + 1) limit := by omega
          obtain ⟨hlt, heq⟩ := ih1 j hj2
          refine ⟨by omega, ?_⟩
          rw [show a + (j + 1) = a + 1 + j by omega,
            show b + (j + 1) = b + 1 + j by omega]
          exact heq
      · intro hlt
        have hlt2 : matchRun data bufEnd (a + 1) (b + 1) limit < limit := by omega
        have h2 := ih2 hlt2
        intro hc
        refine h2 ⟨by omega, ?_⟩
        rw [show a + 1 + matchRun data bufEnd (a + 1) (b + 1) limit =
          a + (1 + matchRun data bufEnd (a + 1) (b + 1) limit) by omega,
          show b + 1 + matchRun data bufEnd (a + 1) (b + 1) limit =
          b + (1 + matchRun data bufEnd (a + 1) (b + 1) limit) by omega]
        exact hc.2
    case isFalse hcond =>
      refine ⟨fun j hj => absurd hj (by omega), ?_⟩
      intro hlt hc
      exact hcond (by simpa using hc)

theorem candLen_le_258 (data : List Nat) (pos o : Nat) :
    candLen data pos o ≤ 258 := by
  have := matchRun_le data pos (min 258 (data.length - pos)) (pos - o) pos
  rw [candLen]
  omega

/-- `candLen` really is the longest in-window match length at offset `o`:
every byte before it matches, and unless it hits one of the caps the next
byte mismatches. -/
theorem candLen_spec (data : List Nat) (pos o : Nat) (h1 : 1 ≤ o) (h2 : o ≤ pos) :
    candLen data pos o ≤ min o (min 258 (data.length - pos)) ∧
    (∀ j, j < candLen data pos o →
      data.getD (pos - o + j) 0 = data.getD (pos + j) 0) ∧
    (candLen data pos o < min o (min 258 (data.length - pos)) →
      data.getD (pos - o + candLen data pos o) 0 ≠
        data.getD (pos + candLen data pos o) 0) := by
  obtain ⟨hall, hstop⟩ :=
    matchRun_spec data pos (min 258 (data.length - pos)) (pos - o) pos
  have hle := matchRun_le data pos (min 258 (data.length - pos)) (pos - o) pos
  rw [candLen]
  refine ⟨?_, fun j hj => (hall j hj).2, ?_⟩
  · have ho : matchRun data pos (pos - o) pos (min 258 (data.length - pos)) ≤ o := by
      by_contra hgt
      have hj := hall o (by omega)
      omega
    omega
  · intro hlt heq
    have hstop2 := hstop (by omega)
    exact hstop2 ⟨by omega, heq⟩

theorem fbmLoop_spec (data : List Nat) (pos start : Nat) (hstart : start ≤ pos) :
    ∀ n best, n ≤ pos - start → LoopInv data pos (pos - start - n) best →
      ResultProps data pos (pos - start) (fbmLoop data pos start n best) := by
  intro n
  induction n with
  | zero =>
    intro best hn hinv
    rw [fbmLoop]
    rcases hinv with ⟨hb, hall⟩ | ⟨h3, h258, ho1, hok, hcand, hub, hlb⟩
    · exact Or.inl ⟨hb, by simpa using hall⟩
    · exact Or.inr ⟨h3, by omega, ho1, by simpa using hok, hcand,
        by simpa using hub, hlb⟩
  | succ n ih =>
    intro best hn hinv
    rw [fbmLoop]
    have hoeq : pos - (start + n) = pos - start - n := by omega
    have ho1 : 1 ≤ pos - start - n := by omega
    have hml : matchRun data pos (start + n) pos (min 258 (data.length - pos)) =
        candLen data pos (pos - start - n) := by
      rw [candLen, show pos - (pos - start - n) = start + n by omega]
    have hml258 : candLen data pos (pos - start - n) ≤ 258 :=
      candLen_le_258 data pos (pos - start - n)
    simp only [hml, hoeq]
    split
    case isTrue hcond =>
      split
      case isTrue h258 =>
        refine Or.inr ⟨by omega, by omega, ho1, by omega, by rw [h258], ?_, ?_⟩
        · intro o ho hok
          have := candLen_le_258 data pos o
          omega
        · intro o ho holt
          have hok2 : o ≤ pos - start - (n + 1) := by omega
          rcases hinv with ⟨hb, hall⟩ | ⟨h3b, h258b, hbo1, hbok, hcand, hub, hlb⟩
          · have := hall o ho hok2
            omega
          · have := hub o ho hok2
            omega
      case isFalse h258 =>
        refine ih _ (by omega) ?_
        refine Or.inr ⟨hcond.1, by omega, ho1, le_refl _, rfl, ?_, ?_⟩
        · intro o ho hok
          by_cases heq : o = pos - start - n
          · rw [heq]
          · have hok2 : o ≤ pos - start - (n + 1) := by omega
            rcases hinv with ⟨hb, hall⟩ | ⟨h3b, h258b, hbo1, hbok, hcand, hub, hlb⟩
            · have := hall o ho hok2
              omega
            · have := hub o ho hok2
              omega
        · intro o ho holt
          have hok2 : o ≤ pos - start - (n + 1) := by omega
          rcases hinv with ⟨hb, hall⟩ | ⟨h3b, h258b, hbo1, hbok, hcand, hub, hlb⟩
          · have := hall o ho hok2
            omega
          · have := hub o ho hok2
            omega
    case isFalse hcond =>
      refine ih _ (by omega) ?_
      rcases hinv with ⟨hb, hall⟩ | ⟨h3, h258, hbo1, hbok, hcand, hub, hlb⟩
      · refine Or.inl ⟨hb, ?_⟩
        intro o ho hok
        by_cases heq : o = pos - start - n
        · subst heq
          by_contra hge
          refine hcond ⟨by omega, ?_⟩
          rw [hb]
          omega
        · exact hall o ho (by omega)
      · refine Or.inr ⟨h3, h258, hbo1, by omega, hcand, ?_, hlb⟩
        intro o ho hok
        by_cases heq : o = pos - start - n
        · subst heq
          by_contra hgt
          exact hcond ⟨by omega, by omega⟩
        · exact hub o ho (by omega)

theorem find_best_match_spec (data : List Nat) (pos : Nat) :
    ResultProps data pos (min pos 32768) (find_best_match data pos) := by
  have h := fbmLoop_spec data pos (pos - 32768) (by omega)
    (pos - (pos - 32768)) (0, 0) (le_refl _)
    (Or.inl ⟨rfl, fun o ho hok => absurd (le_trans ho hok) (by omega)⟩)
  have hw : pos - (pos - 32768) = min pos 32768 := by omega
  rw [find_best_match, ← hw]
  exact h

theorem lz77_tokenizeAux_zero (data : List Nat) (pos : Nat) :
    lz77_tokenizeAux data 0 pos = [] := rfl

theorem lz77_tokenizeAux_succ (data : List Nat) (fuel pos : Nat) :
    lz77_tokenizeAux data (fuel + 1) pos =
      if pos < data.length then
        if 3 ≤ (find_best_match data pos).2 then
          .matchTok (find_best_match data pos).1 (find_best_match data pos).2 ::
            lz77_tokenizeAux data fuel (pos + (find_best_match data pos).2)
        else
          .literal (data.getD pos 0) :: lz77_tokenizeAux data fuel (pos + 1)
      else [] := rfl

theorem lz77_tokenizeAux_congr (data : List Nat) :
    ∀ fuel pos, data.length - pos ≤ fuel →
      lz77_tokenizeAux data fuel pos = lz77_tokenizeAux data (data.length - pos) pos := by
  intro fuel
  induction fuel using Nat.strong_induction_on with
  | _ fuel ih =>
    cases fuel with
    | zero =>
      intro pos hfuel
      rw [show data.length - pos = 0 by omega]
    | succ fuel =>
      intro pos hfuel
      by_cases hp : pos < data.length
      · obtain ⟨k, hk⟩ : ∃ k, data.length - pos = k + 1 :=
          ⟨data.length - pos - 1, by omega⟩
        rw [hk]
        rw [lz77_tokenizeAux_succ, lz77_tokenizeAux_succ, if_pos hp, if_pos hp]
        by_cases hm : 3 ≤ (find_best_match data pos).2
        · simp only [if_pos hm]
          congr 1
          rw [ih fuel (by omega) _ (by omega),
            ih k (by omega) _ (by omega)]
        · simp only [if_neg hm]
          congr 1
          rw [ih fuel (by omega) _ (by omega),
            ih k (by omega) _ (by omega)]
      · rw [show data.length - pos = 0 by omega]
        rw [lz77_tokenizeAux_succ, if_neg hp, lz77_tokenizeAux_zero]

theorem tokenizeFrom_step (data : List Nat) (pos : Nat) (hp : pos < data.length) :
    tokenizeFrom data pos =
      (if 3 ≤ (find_best_match data pos).2 then
        LZ77Token.matchTok (find_best_match data pos).1 (find_best_match data pos).2 ::
          tokenizeFrom data (pos + (find_best_match data pos).2)
      else
        LZ77Token.literal (data.getD pos 0) :: tokenizeFrom data (pos + 1)) := by
  rw [tokenizeFrom]
  obtain ⟨k, hk⟩ : ∃ k, data.length - pos = k + 1 := ⟨data.length - pos - 1, by omega⟩
  rw [hk, lz77_tokenizeAux_succ, if_pos hp]
  by_cases hm : 3 ≤ (find_best_match data pos).2
  · simp only [if_pos hm, tokenizeFrom]
    rw [lz77_tokenizeAux_congr data k _ (by omega)]
  · simp only [if_neg hm, tokenizeFrom]
    rw [lz77_tokenizeAux_congr data k _ (by omega)]

/-- C8: the LZ77 matcher `find_best_match` returns, within the `min pos 32768`
lookback window, a match of the maximum candidate length (candidates are the
longest common runs `candLen`, capped at 258 and — because the inner loop may
not read past `pos` — at the offset itself), reported only when that length is
at least 3, and among window offsets achieving the maximum it returns the
smallest; the tokenizer `lz77_tokenize` starts at position 0 and at each
position below the input length emits a match token and advances by its length
when the matcher reports length ≥ 3, otherwise emits a literal of the current
byte and advances by 1, stopping at the end of the input. -/
theorem C8_lz77_matcher_tokenizer (data : List Nat) :
    (∀ pos, ResultProps data pos (min pos 32768) (find_best_match data pos)) ∧
    (∀ pos o, 1 ≤ o → o ≤ min pos 32768 →
      candLen data pos o ≤ min o (min 258 (data.length - pos)) ∧
      (∀ j, j < candLen data pos o →
        data.getD (pos - o + j) 0 = data.getD (pos + j) 0) ∧
      (candLen data pos o < min o (min 258 (data.length - pos)) →
        data.getD (pos - o + candLen data pos o) 0 ≠
          data.getD (pos + candLen data pos o) 0)) ∧
    lz77_tokenize data = tokenizeFrom data 0 ∧
    (∀ pos, pos < data.length →
      tokenizeFrom data pos =
        (if 3 ≤ (find_best_match data pos).2 then
          LZ77Token.matchTok (find_best_match data pos).1 (find_best_match data pos).2 ::
            tokenizeFrom data (pos + (find_best_match data pos).2)
        else
          LZ77Token.literal (data.getD pos 0) :: tokenizeFrom data (pos + 1))) ∧
    (∀ pos, data.length ≤ pos → tokenizeFrom data pos = []) := by
  refine ⟨fun pos => find_best_match_spec data pos, ?_, ?_, ?_, ?_⟩
  · intro pos o ho hok
    exact candLen_spec data pos o ho (le_trans hok (min_le_left _ _))
  · simp [lz77_tokenize, tokenizeFrom]
  · intro pos hp
    exact tokenizeFrom_step data pos hp
  · intro pos hp
    rw [tokenizeFrom, show data.length - pos = 0 by omega, lz77_tokenizeAux_zero]

theorem C8_witness :
    ResultProps [5, 5, 5, 5, 5, 5] 3 (min 3 32768)
      (find_best_match [5, 5, 5, 5, 5, 5] 3) ∧
    (candLen [5, 5, 5, 5, 5, 5] 3 3 ≤
      min 3 (min 258 ((5 : Nat) :: [5, 5, 5, 5, 5]).length - 3)) ∧
    tokenizeFrom [5, 5, 5, 5, 5, 5] 3 =
      (if 3 ≤ (find_best_match [5, 5, 5, 5, 5, 5] 3).2 then
        LZ77Token.matchTok (find_best_match [5, 5, 5, 5, 5, 5] 3).1
            (find_best_match [5, 5, 5, 5, 5, 5] 3).2 ::
          tokenizeFrom [5, 5, 5, 5, 5, 5] (3 + (find_best_match [5, 5, 5, 5, 5, 5] 3).2)
      else
        LZ77Token.literal ([5, 5, 5, 5, 5, 5].getD 3 0) ::
          tokenizeFrom [5, 5, 5, 5, 5, 5] (3 + 1)) ∧
    tokenizeFrom [5, 5, 5, 5, 5, 5] 6 = [] := by
  obtain ⟨h1, h2, _, h4, h5⟩ := C8_lz77_matcher_tokenizer [5, 5, 5, 5, 5, 5]
  exact ⟨h1 3, (h2 3 3 (by decide) (by decide)).1, h4 3 (by decide), h5 6 (by decide)⟩

end SDAL
